import Mathlib

/-!
Verification development for the beam-analysis engine of this repository
(backend/viga.py and backend/integracion_subtramos.py).

The Python code is shallowly embedded over the rationals: every float of the
source becomes a rational, every float comparison and tolerance constant is
kept literally, fallible constructors and mutators return an Except value
mirroring the ValueError/RuntimeError raised by the source, and the per-beam
memoization cache is threaded explicitly.  Python dicts keyed by support name
are modelled by insertion-ordered association lists where inserting an
existing key overwrites it in place, exactly like dict assignment.
-/

namespace Analisis

/-- Tolerance 1e-12 used throughout the source for numerical-zero checks. -/
def tol12 : ℚ := 1 / 10 ^ 12

/-- Minimum support separation of 1 mm (viga.py validation). -/
def tol1mm : ℚ := 1 / 1000

/-- Default relative tolerance of numpy isclose (rtol = 1e-5). -/
def rtol5 : ℚ := 1 / 10 ^ 5

/-- Python dict with string keys and rational values, as an
insertion-ordered association list. -/
abbrev Dict := List (String × ℚ)

/-- Python dict assignment: overwrite the value in place when the key exists,
append otherwise. -/
def dictInsert (d : Dict) (k : String) (v : ℚ) : Dict :=
  match d with
  | [] => [(k, v)]
  | (k', v') :: rest => if k' = k then (k, v) :: rest else (k', v') :: dictInsert rest k v

/-- Python dict lookup. -/
def dictGet (d : Dict) (k : String) : Option ℚ :=
  match d with
  | [] => none
  | (k', v') :: rest => if k' = k then some v' else dictGet rest k

/-- Sum of the values of a dict, as in Python sum(d.values()). -/
def dictValuesSum (d : Dict) : ℚ := (d.map Prod.snd).sum

/-- Load variants of viga.py.  CargaTriangular is CargaTrapezoidal with one
zero end intensity (same runtime dispatch in every algorithm of the source),
so it is represented by the trapezoidal constructor. -/
inductive Carga
  | puntual (magnitud posicion : ℚ)
  | momento (magnitud posicion : ℚ) (en_vano : Bool)
  | uniforme (intensidad inicio fin : ℚ)
  | trapezoidal (intensidad_inicio intensidad_fin inicio fin : ℚ)
deriving DecidableEq, Repr

/-- Carga.total_load of viga.py: net downward force of the load. -/
def total_load : Carga → ℚ
  | .puntual m _ => m
  | .momento _ _ _ => 0
  | .uniforme w a b => w * (b - a)
  | .trapezoidal w1 w2 a b => (w1 + w2) * (b - a) / 2

/-- Carga.moment_about of viga.py: moment of the load about a point. -/
def moment_about (c : Carga) (origen : ℚ) : ℚ :=
  match c with
  | .puntual m p => m * (p - origen)
  | .momento m _ _ => m
  | .uniforme w a b => w * (b - a) * ((a + b) / 2 - origen)
  | .trapezoidal w1 w2 a b =>
      if w1 = w2 then (w1 + w2) * (b - a) / 2 * ((a + b) / 2 - origen)
      else if w1 + w2 = 0 then 0
      else (w1 + w2) * (b - a) / 2 * (a + (b - a) * (w1 + 2 * w2) / (3 * (w1 + w2)) - origen)

/-- Heaviside H(v) with H(0) = 0, the value sp.Heaviside(val, 0) used by
viga.py for shear expressions. -/
def heaviside0 (v : ℚ) : ℚ := if 0 < v then 1 else 0

/-- Macaulay bracket of viga.py built on the zero-at-origin Heaviside. -/
def macaulayQ (xv a : ℚ) (n : ℕ) : ℚ := (xv - a) ^ n * heaviside0 (xv - a)

/-- Carga.shear_expression of viga.py, evaluated at a point. -/
def shear_expression (c : Carga) (xv : ℚ) : ℚ :=
  match c with
  | .puntual m p => -m * heaviside0 (xv - p)
  | .momento _ _ _ => 0
  | .uniforme w a b => -w * macaulayQ xv a 1 + w * macaulayQ xv b 1
  | .trapezoidal w1 w2 a b =>
      -(w1 * macaulayQ xv a 1 + (w2 - w1) / (b - a) / 2 * macaulayQ xv a 2)
      + (w1 * macaulayQ xv b 1 + (w2 - w1) / (b - a) / 2 * macaulayQ xv b 2)

/-- CargaPuntual construction (viga.py __post_init__, no unit conversion):
position must be nonnegative and the magnitude significant. -/
def mkCargaPuntual (magnitud posicion : ℚ) : Except String Carga :=
  if posicion < 0 then .error "La posicion debe ser no negativa"
  else if |magnitud| < tol12 then .error "La magnitud debe ser significativa"
  else .ok (.puntual magnitud posicion)

/-- CargaMomento construction (viga.py __post_init__). -/
def mkCargaMomento (magnitud posicion : ℚ) (en_vano : Bool) : Except String Carga :=
  if posicion < 0 then .error "La posicion debe ser no negativa"
  else if |magnitud| < tol12 then .error "La magnitud del momento debe ser significativa"
  else .ok (.momento magnitud posicion en_vano)

/-- CargaUniforme construction (viga.py __post_init__, no unit conversion):
only checks fin > inicio.  Note that inicio is never required to be
nonnegative by the source. -/
def mkCargaUniforme (intensidad inicio fin : ℚ) : Except String Carga :=
  if fin ≤ inicio then .error "fin debe ser mayor que inicio en la carga uniforme"
  else .ok (.uniforme intensidad inicio fin)

/-- CargaTrapezoidal construction (viga.py __post_init__). -/
def mkCargaTrapezoidal (w1 w2 inicio fin : ℚ) : Except String Carga :=
  if fin ≤ inicio then .error "fin debe ser mayor que inicio en la carga trapezoidal"
  else .ok (.trapezoidal w1 w2 inicio fin)

/-- A support: position plus name (Apoyo of viga.py). -/
structure Apoyo where
  posicion : ℚ
  nombre : String
deriving DecidableEq, Repr

/-- Two-decimal fixed-point rendering of a nonnegative rational, modelling the
Python format f-string with .2f used for default support names (rounding to
the nearest hundredth; the half-way tie convention differs from Python only
at exact ties, which no concrete input below hits). -/
def format2 (q : ℚ) : String :=
  let n : ℤ := ⌊q * 100 + 1 / 2⌋
  let ip : ℤ := n / 100
  let fp : ℤ := n % 100
  toString ip ++ "." ++ (if fp < 10 then "0" ++ toString fp else toString fp)

/-- Apoyo construction (viga.py __post_init__): nonnegative position and a
default name derived from the position when none is given. -/
def mkApoyo (posicion : ℚ) (nombre : String) : Except String Apoyo :=
  if posicion < 0 then .error "La posicion del apoyo debe ser no negativa"
  else if nombre = "" then .ok ⟨posicion, "R_" ++ format2 posicion⟩
  else .ok ⟨posicion, nombre⟩

/-- The beam aggregate (Viga of viga.py).  The field cacheReacciones models
the private memoization field for reactions; the symbolic-expression caches
are irrelevant to the claims below. -/
structure Viga where
  longitud : ℚ
  E : ℚ
  I : ℚ
  apoyos : List Apoyo
  cargas : List Carga
  cacheReacciones : Option Dict
deriving DecidableEq, Repr

/-- Stable insertion of a support into a position-sorted list (helper for the
stable Python list.sort keyed by position). -/
def insertApoyo (a : Apoyo) : List Apoyo → List Apoyo
  | [] => [a]
  | b :: rest => if a.posicion ≤ b.posicion then a :: b :: rest else b :: insertApoyo a rest

/-- Stable sort of supports by ascending position, the semantics of the
Python list.sort(key=posicion) calls in viga.py. -/
def sortApoyos : List Apoyo → List Apoyo
  | [] => []
  | a :: rest => insertApoyo a (sortApoyos rest)

/-- True when some support lies beyond the beam (validation of viga.py). -/
def apoyosFuera (L : ℚ) (as : List Apoyo) : Bool :=
  as.any (fun a => a.posicion > L)

/-- True when two supports of the list are closer than 1 mm (validation of
viga.py over all pairs i < j). -/
def apoyosCercanos : List Apoyo → Bool
  | [] => false
  | a :: rest => rest.any (fun b => |a.posicion - b.posicion| < tol1mm) || apoyosCercanos rest

/-- Viga construction (viga.py __post_init__): positive geometry/material,
default supports A at 0 and B at L when none are given, otherwise bound,
proximity validation and a position sort. -/
def mkViga (longitud E I : ℚ) (apoyos : List Apoyo) : Except String Viga :=
  if longitud ≤ 0 then .error "La longitud de la viga debe ser positiva"
  else if E ≤ 0 then .error "El modulo de elasticidad debe ser positivo"
  else if I ≤ 0 then .error "El momento de inercia debe ser positivo"
  else
    match apoyos with
    | [] => .ok ⟨longitud, E, I, [⟨0, "A"⟩, ⟨longitud, "B"⟩], [], none⟩
    | _ =>
      if apoyosFuera longitud apoyos then .error "apoyo fuera de la viga"
      else if apoyosCercanos apoyos then .error "apoyos muy cercanos"
      else .ok ⟨longitud, E, I, sortApoyos apoyos, [], none⟩

/-- Viga.agregar_carga of viga.py: point loads and moments are rejected when
their position exceeds the length, distributed loads when their end does; on
success the load is appended and the caches reset.  The source checks nothing
else here. -/
def agregar_carga (v : Viga) (c : Carga) : Except String Viga :=
  match c with
  | .puntual _ p =>
      if p > v.longitud then .error "La carga puntual esta fuera de la viga"
      else .ok { v with cargas := v.cargas ++ [c], cacheReacciones := none }
  | .momento _ p _ =>
      if p > v.longitud then .error "El momento puntual esta fuera de la viga"
      else .ok { v with cargas := v.cargas ++ [c], cacheReacciones := none }
  | .uniforme _ _ fin =>
      if fin > v.longitud then .error "La carga distribuida termina fuera de la viga"
      else .ok { v with cargas := v.cargas ++ [c], cacheReacciones := none }
  | .trapezoidal _ _ _ fin =>
      if fin > v.longitud then .error "La carga distribuida termina fuera de la viga"
      else .ok { v with cargas := v.cargas ++ [c], cacheReacciones := none }

/-- Sequential agregar_carga calls (the loops of viga.py that copy the loads
of a beam onto an auxiliary beam). -/
def agregar_cargas (v : Viga) : List Carga → Except String Viga
  | [] => .ok v
  | c :: rest =>
      match agregar_carga v c with
      | .ok v' => agregar_cargas v' rest
      | .error e => .error e

/-- Viga.tipo_sistema of viga.py. -/
def tipo_sistema (v : Viga) : String :=
  if v.apoyos.length < 2 then "hipostatico"
  else if v.apoyos.length = 2 then "isostatico"
  else "hiperestatico"

/-- Sum of total_load over the loads (viga.py equilibrium sums). -/
def sumCargas (cs : List Carga) : ℚ := (cs.map total_load).sum

/-- Sum of moment_about a point over the loads. -/
def sumMomentos (cs : List Carga) (origen : ℚ) : ℚ :=
  (cs.map (moment_about · origen)).sum

/-- The two-support branch of Viga.calcular_reacciones: moments about the
left support give the right reaction, vertical equilibrium the left one;
fails when the distance is numerically zero (< 1e-12). -/
def reacciones_dos_apoyos (cargas : List Carga) (izq der : Apoyo) : Except String Dict :=
  let suma := sumCargas cargas
  let momentos := sumMomentos cargas izq.posicion
  let d := der.posicion - izq.posicion
  if |d| < tol12 then .error "Los apoyos estan demasiado cerca"
  else
    let R_der := momentos / d
    let R_izq := suma - R_der
    .ok (dictInsert (dictInsert [] izq.nombre R_izq) der.nombre R_der)

/-- One forward-elimination/back-substitution pass of exact Gaussian
elimination with row search for a nonzero pivot: picks the first row whose
leading coefficient is nonzero.  Returns none when no pivot exists.  This is
the embedding of np.linalg.solve, which raises LinAlgError exactly on a
singular matrix. -/
def pivotSplit (rows : List (List ℚ)) : Option (List ℚ × List (List ℚ)) :=
  match rows with
  | [] => none
  | r :: rest =>
      if r.headD 0 ≠ 0 then some (r, rest)
      else
        match pivotSplit rest with
        | some (p, others) => some (p, r :: others)
        | none => none

/-- Eliminate the leading variable of a row using the pivot row. -/
def elimRow (pivot r : List ℚ) : List ℚ :=
  let f := r.headD 0 / pivot.headD 0
  List.zipWith (fun a b => a - f * b) r.tail pivot.tail

/-- Back substitution: given the pivot row (coefficients then rhs) and the
solution of the reduced system, recover the leading unknown. -/
def backSub (p : List ℚ) (xs : List ℚ) : ℚ :=
  match p with
  | [] => 0
  | a0 :: rest =>
      let rhs := rest.getLastD 0
      let coeffs := rest.dropLast
      (rhs - (List.zipWith (· * ·) coeffs xs).sum) / a0

/-- Fueled recursion for the elimination (the fuel is the row count, so it
never runs out on well-formed inputs). -/
def gaussRecFuel : ℕ → List (List ℚ) → Option (List ℚ)
  | _, [] => some []
  | 0, _ :: _ => none
  | fuel + 1, rows =>
      match pivotSplit rows with
      | none => none
      | some (p, rest) =>
          match gaussRecFuel fuel (rest.map (elimRow p)) with
          | none => none
          | some xs => some (backSub p xs :: xs)

/-- Dense exact linear solve over the rationals; none exactly when the matrix
is singular (no nonzero pivot at some elimination step), the analogue of the
LinAlgError raised by np.linalg.solve in viga.py. -/
def gaussSolve (mat : List (List ℚ)) (b : List ℚ) : Option (List ℚ) :=
  gaussRecFuel mat.length (List.zipWith (fun row r => row ++ [r]) mat b)

/-- apoyos[0] of viga.py (the left primary support of the hyperstatic case). -/
def apoyo_izq (v : Viga) : Apoyo := v.apoyos.headD ⟨0, ""⟩

/-- apoyos[-1] of viga.py (the right primary support). -/
def apoyo_der (v : Viga) : Apoyo := v.apoyos.getLastD ⟨0, ""⟩

/-- apoyos[1:-1] of viga.py: the interior, redundant supports. -/
def apoyos_redundantes (v : Viga) : List Apoyo := (v.apoyos.drop 1).dropLast

/-- Construction of an auxiliary two-support beam carrying a given load list,
as done repeatedly by the hyperstatic branch of Viga.calcular_reacciones:
the Viga constructor (with its validations) followed by agregar_carga calls. -/
def viga_auxiliar (longitud E I : ℚ) (izq der : Apoyo) (cargas : List Carga) :
    Except String Viga :=
  match mkViga longitud E I [izq, der] with
  | .error e => .error e
  | .ok v => agregar_cargas v cargas

/-- The recursive calcular_reacciones call that the hyperstatic branch makes
on a freshly built auxiliary beam.  Such a beam always has an empty cache and
exactly two supports, so the recursive call reduces to the isostatic branch
on its two (position-sorted) supports. -/
def calc_dos (v : Viga) : Except String Dict :=
  match v.apoyos with
  | [a, b] => reacciones_dos_apoyos v.cargas a b
  | _ => .error "se esperaban dos apoyos"

/-- Deflections of the primary beam sampled at the redundant support
positions.  The sampling itself (generar_dataframe / the numeric fallback,
i.e. the diagram pipeline plus nearest-grid-point lookup) is taken as the
oracle parameter defl; every theorem below holds for an arbitrary oracle. -/
def deflexiones_cargas (defl : Viga → ℚ → ℚ) (vp : Viga) (redundantes : List Apoyo) :
    List ℚ :=
  redundantes.map (fun ap => defl vp ap.posicion)

/-- Column j of the flexibility data: deflections at every redundant support
of the primary beam loaded with the unit load (magnitude -1, an upward unit
reaction) at redundant support j, looping over js. -/
def columnas_flexibilidad (defl : Viga → ℚ → ℚ) (longitud E I : ℚ) (izq der : Apoyo)
    (redundantes : List Apoyo) : List Apoyo → Except String (List (List ℚ))
  | [] => .ok []
  | apJ :: rest =>
      match mkCargaPuntual (-1) apJ.posicion with
      | .error e => .error e
      | .ok cu =>
          match viga_auxiliar longitud E I izq der [cu] with
          | .error e => .error e
          | .ok vu =>
              match columnas_flexibilidad defl longitud E I izq der redundantes rest with
              | .error e => .error e
              | .ok cols => .ok (redundantes.map (fun apI => defl vu apI.posicion) :: cols)

/-- Flexibility matrix assembled row-wise from its columns:
F[i][j] = cols[j][i], matching matriz_flexibilidad[i, j] of viga.py. -/
def matriz_flexibilidad (cols : List (List ℚ)) (n : ℕ) : List (List ℚ) :=
  (List.range n).map (fun i => cols.map (fun col => col.getD i 0))

/-- CargaPuntual(magnitud=-R_red[i], posicion=...) construction loop of
step 5 of the hyperstatic branch (each construction can fail when the solved
redundant reaction is numerically insignificant). -/
def cargas_equivalentes : List (Apoyo × ℚ) → Except String (List Carga)
  | [] => .ok []
  | (ap, r) :: rest =>
      match mkCargaPuntual (-r) ap.posicion with
      | .error e => .error e
      | .ok c =>
          match cargas_equivalentes rest with
          | .error e => .error e
          | .ok cs => .ok (c :: cs)

/-- The hyperstatic (n >= 3) branch of Viga.calcular_reacciones: flexibility
and compatibility method with the two extreme supports as the primary
isostatic system.  Any exception of the source's try block becomes an error
value (the source re-raises them as RuntimeError). -/
def calcular_reacciones_hiper (defl : Viga → ℚ → ℚ) (v : Viga)
    (izq der : Apoyo) (redundantes : List Apoyo) : Except String Dict :=
  match viga_auxiliar v.longitud v.E v.I izq der v.cargas with
  | .error e => .error e
  | .ok viga_primaria =>
      match calc_dos viga_primaria with
      | .error e => .error e
      | .ok reacciones_primarias =>
          let dc := deflexiones_cargas defl viga_primaria redundantes
          match columnas_flexibilidad defl v.longitud v.E v.I izq der redundantes redundantes with
          | .error e => .error e
          | .ok cols =>
              match gaussSolve (matriz_flexibilidad cols redundantes.length) (dc.map Neg.neg) with
              | none => .error "No se pudieron calcular las reacciones hiperestaticas"
              | some R_red =>
                  match cargas_equivalentes (redundantes.zip R_red) with
                  | .error e => .error e
                  | .ok cargas_eq =>
                      match viga_auxiliar v.longitud v.E v.I izq der cargas_eq with
                      | .error e => .error e
                      | .ok viga_redundantes =>
                          match calc_dos viga_redundantes with
                          | .error e => .error e
                          | .ok reacciones_por_red =>
                              let R_izq_tot := (dictGet reacciones_primarias izq.nombre).getD 0 +
                                (dictGet reacciones_por_red izq.nombre).getD 0
                              let R_der_tot := (dictGet reacciones_primarias der.nombre).getD 0 +
                                (dictGet reacciones_por_red der.nombre).getD 0
                              let r0 := dictInsert (dictInsert [] izq.nombre R_izq_tot)
                                der.nombre R_der_tot
                              .ok ((redundantes.zip R_red).foldl
                                (fun d par => dictInsert d par.1.nombre par.2) r0)

/-- Viga.calcular_reacciones of viga.py, with the post-state beam returned
alongside the result: the memoized reactions are assigned only on the success
paths, exactly as in the source, so on an error the cache is untouched. -/
def calcular_reacciones (defl : Viga → ℚ → ℚ) (v : Viga) : Except String Dict × Viga :=
  match v.cacheReacciones with
  | some r => (.ok r, v)
  | none =>
      match v.apoyos with
      | [] => (.error "La viga debe tener al menos un apoyo", v)
      | [a] =>
          let r := dictInsert [] a.nombre (sumCargas v.cargas)
          (.ok r, { v with cacheReacciones := some r })
      | [izq, der] =>
          match reacciones_dos_apoyos v.cargas izq der with
          | .ok r => (.ok r, { v with cacheReacciones := some r })
          | .error e => (.error e, v)
      | _ :: _ :: _ :: _ =>
          match calcular_reacciones_hiper defl v (apoyo_izq v) (apoyo_der v)
              (apoyos_redundantes v) with
          | .ok r => (.ok r, { v with cacheReacciones := some r })
          | .error e => (.error e, v)

/-- Heaviside H(v) with H(0) = 1/2, the function H(x, half=True) of
integracion_subtramos.py used for reaction and point-force jumps in V. -/
def Hhalf (v : ℚ) : ℚ := if 0 < v then 1 else if v = 0 then 1 / 2 else 0

/-- Cumulative trapezoid integral (scipy cumulative_trapezoid with
initial=0.0): first entry 0, then running sums of trapezoid areas. -/
def cumtrapzGo (acc fp xp : ℚ) : List ℚ → List ℚ → List ℚ
  | f1 :: fr, x1 :: xr =>
      let acc' := acc + (fp + f1) / 2 * (x1 - xp)
      acc' :: cumtrapzGo acc' f1 x1 fr xr
  | _, _ => []

/-- Cumulative trapezoid integral of samples f over abscissas xs. -/
def cumtrapz (f xs : List ℚ) : List ℚ :=
  match f, xs with
  | f0 :: fr, x0 :: xr => 0 :: cumtrapzGo 0 f0 x0 fr xr
  | _, _ => []

/-- Pointwise contribution of one load to the total distributed intensity
w_total(x), from construir_w_total_continua of integracion_subtramos.py:
half-open mask [inicio, fin) unless the load ends at the beam end (within
1e-12), in which case the mask is closed; point loads and moments contribute
nothing; a linear (trapezoidal/triangular) load is interpolated, and skipped
entirely when its span is not larger than 1e-12. -/
def contribucion_w (L_viga : ℚ) (c : Carga) (xv : ℚ) : ℚ :=
  match c with
  | .puntual _ _ => 0
  | .momento _ _ _ => 0
  | .uniforme w a b =>
      if |b - L_viga| < tol12 then (if a ≤ xv ∧ xv ≤ b then w else 0)
      else (if a ≤ xv ∧ xv < b then w else 0)
  | .trapezoidal w1 w2 a b =>
      if |b - L_viga| < tol12 then
        (if a ≤ xv ∧ xv ≤ b then
          (if tol12 < b - a then w1 * (1 - (xv - a) / (b - a)) + w2 * ((xv - a) / (b - a)) else 0)
        else 0)
      else
        (if a ≤ xv ∧ xv < b then
          (if tol12 < b - a then w1 * (1 - (xv - a) / (b - a)) + w2 * ((xv - a) / (b - a)) else 0)
        else 0)

/-- construir_w_total_continua of integracion_subtramos.py evaluated at one
grid point: sum of all distributed contributions. -/
def construir_w_total_continua (v : Viga) (xv : ℚ) : ℚ :=
  (v.cargas.map (fun c => contribucion_w v.longitud c xv)).sum

/-- Modelled from the claim wording for the w_total assembly: a distributed
load contributes exactly on the half-open interval inicio <= x < fin, except
when its end coincides with the beam right end (the source's numerical
coincidence check, |fin - L| < 1e-12), in which case the interval is closed;
point forces and point moments contribute zero; the value contributed is the
load intensity (linearly interpolated for trapezoidal loads of span > 1e-12). -/
def contribucion_w_spec (L_viga : ℚ) (c : Carga) (xv : ℚ) : ℚ :=
  match c with
  | .puntual _ _ => 0
  | .momento _ _ _ => 0
  | .uniforme w a b =>
      if (a ≤ xv ∧ xv < b) ∨ (|b - L_viga| < tol12 ∧ a ≤ xv ∧ xv ≤ b) then w else 0
  | .trapezoidal w1 w2 a b =>
      if (a ≤ xv ∧ xv < b) ∨ (|b - L_viga| < tol12 ∧ a ≤ xv ∧ xv ≤ b) then
        (if tol12 < b - a then
          w1 * (1 - (xv - a) / (b - a)) + w2 * ((xv - a) / (b - a))
        else 0)
      else 0

/-- Restriction of a beam to its distributed loads only. -/
def soloDistribuidas (v : Viga) : Viga :=
  { v with cargas := v.cargas.filter (fun c =>
      match c with
      | .uniforme _ _ _ => true
      | .trapezoidal _ _ _ _ => true
      | _ => false) }

/-- Removal of all point moments from a beam's load list. -/
def soloSinMomentos (v : Viga) : Viga :=
  { v with cargas := v.cargas.filter (fun c =>
      match c with
      | .momento _ _ _ => false
      | _ => true) }

/-- Shear contribution of the point loads to V at one grid point: the point
force loop of PASO 5 of integracion_subtramos.py (only CargaPuntual enters). -/
def saltos_puntuales (cargas : List Carga) (xv : ℚ) : ℚ :=
  (cargas.map (fun c =>
    match c with
    | .puntual P p => P * Hhalf (xv - p)
    | _ => 0)).sum

/-- Reaction contribution to V at one grid point: the support loop of PASO 5. -/
def saltos_reacciones (apoyos : List Apoyo) (reacciones : Dict) (xv : ℚ) : ℚ :=
  (apoyos.map (fun ap => ((dictGet reacciones ap.nombre).getD 0) * Hhalf (xv - ap.posicion))).sum

/-- PASO 4-5 of evaluar_por_subtramos: the assembled shear array
V = sum R_i H(x - a_i) - sum P_j H(x - p_j) - cumtrapz(w_total) over a grid. -/
def construir_V (v : Viga) (reacciones : Dict) (grid : List ℚ) : List ℚ :=
  let base := grid.map (fun xv =>
    saltos_reacciones v.apoyos reacciones xv - saltos_puntuales v.cargas xv)
  List.zipWith (fun b w => b - w) base
    (cumtrapz (grid.map (construir_w_total_continua v)) grid)

/-- The shear array of evaluar_por_subtramos over a given grid: reactions
from calcular_reacciones (PASO 3) followed by the V assembly (PASO 4-5). -/
def evaluar_V (defl : Viga → ℚ → ℚ) (v : Viga) (grid : List ℚ) : List ℚ :=
  match (calcular_reacciones defl v).1 with
  | .ok r => construir_V v r grid
  | .error _ => []

/-- np.isclose(a, b, atol=1e-12) with numpy's default rtol = 1e-5:
|a - b| <= atol + rtol * |b|. -/
def npIsClose (a b : ℚ) : Bool := |a - b| ≤ tol12 + rtol5 * |b|

/-- Index of the first grid point isclose to the moment position, the
np.where(np.isclose(...))[0] lookup of PASO 6. -/
def findCloseIdx (grid : List ℚ) (xm : ℚ) : Option ℕ :=
  grid.findIdx? (fun g => npIsClose g xm)

/-- In-place jump update M[i] += M0/2, M[i+1:] += M0 starting the index count
at j (helper for the exact-grid-point branch of PASO 6). -/
def sumar_salto (i : ℕ) (M0 : ℚ) : ℕ → List ℚ → List ℚ
  | _, [] => []
  | j, mv :: rest =>
      (if j = i then mv + M0 / 2 else if i < j then mv + M0 else mv) ::
        sumar_salto i M0 (j + 1) rest

/-- Application of one point-moment jump to the M array (PASO 6 of
evaluar_por_subtramos): half jump at the isclose grid point and full jump
after it when such a point exists, otherwise full jump strictly beyond the
moment position. -/
def aplicar_salto_momento (grid M : List ℚ) (xm M0 : ℚ) : List ℚ :=
  match findCloseIdx grid xm with
  | some i => sumar_salto i M0 0 M
  | none => List.zipWith (fun g mv => if xm < g then mv + M0 else mv) grid M

/-- The full point-moment loop of PASO 6: a moment sitting exactly on a
support (within 1e-12) with en_vano = false is skipped, every other moment
adds its jump. -/
def aplicar_saltos_momentos (apoyos : List Apoyo) (cargas : List Carga)
    (grid M : List ℚ) : List ℚ :=
  cargas.foldl (fun Mcur c =>
    match c with
    | .momento M0 xm en_vano =>
        let esta_en_apoyo := apoyos.any (fun ap => |xm - ap.posicion| < tol12)
        if !esta_en_apoyo || en_vano then aplicar_salto_momento grid Mcur xm M0 else Mcur
    | _ => Mcur) M

/-- First index minimizing |g - t| over the tail, carrying the best index and
value so far (strict improvement keeps the first minimizer, like np.argmin). -/
def argminAbsAux (t : ℚ) : List ℚ → ℕ → ℕ → ℚ → ℕ
  | [], _, best, _ => best
  | g :: rest, i, best, bestv =>
      if |g - t| < bestv then argminAbsAux t rest (i + 1) i |g - t|
      else argminAbsAux t rest (i + 1) best bestv

/-- np.argmin(np.abs(grid - t)): index of the first grid point nearest t. -/
def argminAbs (grid : List ℚ) (t : ℚ) : ℕ :=
  match grid with
  | [] => 0
  | g :: rest => argminAbsAux t rest 1 0 |g - t|

/-- Sorted copy of a list of rationals via stable insertion (the semantics of
the Python sorted(...) calls on support positions). -/
def insertQ (q : ℚ) : List ℚ → List ℚ
  | [] => [q]
  | b :: rest => if q ≤ b then q :: b :: rest else b :: insertQ q rest

/-- Python sorted(...) on rationals. -/
def sortQ : List ℚ → List ℚ
  | [] => []
  | a :: rest => insertQ a (sortQ rest)

/-- One span correction of PASO 7: skip a degenerate span, otherwise subtract
the affine function through (xa, M[nearest xa]) and (xb, M[nearest xb]) from
the grid points with xa <= x <= xb. -/
def corregir_vano (grid M : List ℚ) (xa xb : ℚ) : List ℚ :=
  if |xb - xa| ≤ tol12 then M
  else
    let ia := argminAbs grid xa
    let ib := argminAbs grid xb
    let Ma := M.getD ia 0
    let Mb := M.getD ib 0
    let pendiente := (Mb - Ma) / (xb - xa)
    List.zipWith (fun g mv =>
      if xa ≤ g ∧ g ≤ xb then mv - (Ma + pendiente * (g - xa)) else mv) grid M

/-- PASO 7 of evaluar_por_subtramos: the per-span affine moment correction,
performed only for systems with 3 or more supports, over consecutive pairs of
the position-sorted support list. -/
def correccion_afin_vanos (apoyos : List Apoyo) (grid M : List ℚ) : List ℚ :=
  if 3 ≤ apoyos.length then
    let ps := sortQ (apoyos.map (·.posicion))
    (ps.zip ps.tail).foldl (fun Mcur par => corregir_vano grid Mcur par.1 par.2) M
  else M

/-- PASO 10 of evaluar_por_subtramos: the global affine deflection
correction forcing y = 0 at the two extreme supports, located by sorted
position (not by list order), and applied to the whole grid. -/
def correccion_deflexion (apoyos : List Apoyo) (grid y : List ℚ) : List ℚ :=
  if 2 ≤ apoyos.length then
    let ps := sortQ (apoyos.map (·.posicion))
    let x_izq := ps.headD 0
    let x_der := ps.getLastD 0
    let i_izq := argminAbs grid x_izq
    let i_der := argminAbs grid x_der
    let y_izq := y.getD i_izq 0
    let y_der := y.getD i_der 0
    if tol12 < |x_der - x_izq| then
      let pendiente := (y_der - y_izq) / (x_der - x_izq)
      List.zipWith (fun g yv => yv - (y_izq + pendiente * (g - x_izq))) grid y
    else y
  else y

/-- Trivial deflection oracle (all sampled deflections zero), used to
instantiate oracle-parametric statements on concrete two-support examples
where the oracle is never consulted, and to exhibit a singular flexibility
matrix. -/
def defl0 : Viga → ℚ → ℚ := fun _ _ => 0

/-- Concrete beam of the spec scenario: L = 6, supports A at 0 and B at 6,
point force 2000 N at x = 2 (cache empty). -/
def vigaC1 : Viga := ⟨6, 1, 1, [⟨0, "A"⟩, ⟨6, "B"⟩], [.puntual 2000 2], none⟩

/-- Concrete beam with two default-named supports at 0 and 0.002 m (2 mm
apart, hence passing the 1 mm validation) whose generated names collide, plus
a 1000 N point force at x = 3. -/
def vigaC2cx : Viga := ⟨6, 1, 1, [⟨0, "R_0.00"⟩, ⟨1 / 500, "R_0.00"⟩], [.puntual 1000 3], none⟩

/-- Concrete well-named beam: supports A at 0 and B at 6, point force 1000 N
at x = 3. -/
def vigaC2w : Viga := ⟨6, 1, 1, [⟨0, "A"⟩, ⟨6, "B"⟩], [.puntual 1000 3], none⟩

/-- Concrete beam with a single point moment of 600 N·m at x = 3 between
supports at 0 and 6. -/
def vigaC7 : Viga := ⟨6, 1, 1, [⟨0, "A"⟩, ⟨6, "B"⟩], [.momento 600 3 true], none⟩

/-- Concrete empty two-support beam of length 6. -/
def vigaC8 : Viga := ⟨6, 1, 1, [⟨0, "A"⟩, ⟨6, "B"⟩], [], none⟩

/-- Concrete unloaded three-support beam (supports at 0, 3 and 6). -/
def vigaC9 : Viga := ⟨6, 1, 1, [⟨0, "A"⟩, ⟨3, "B"⟩, ⟨6, "C"⟩], [], none⟩

/-! Helper lemmas. -/

theorem sum_map_filter_eq (f : Carga → ℚ) (p : Carga → Bool)
    (h : ∀ c, p c = false → f c = 0) :
    ∀ cs : List Carga, ((cs.filter p).map f).sum = (cs.map f).sum := by
  intro cs
  induction cs with
  | nil => rfl
  | cons c rest ih =>
      by_cases hp : p c
      · simp [List.filter_cons, hp, ih]
      · simp only [Bool.not_eq_true] at hp
        simp [List.filter_cons, hp, ih, h c hp]

theorem getD_zipWith (f : ℚ → ℚ → ℚ) :
    ∀ (as bs : List ℚ) (j : ℕ), j < as.length → j < bs.length →
      (List.zipWith f as bs).getD j 0 = f (as.getD j 0) (bs.getD j 0) := by
  intro as
  induction as with
  | nil => intro bs j h _; exact absurd h (by simp)
  | cons a as ih =>
      intro bs j h1 h2
      cases bs with
      | nil => exact absurd h2 (by simp)
      | cons b bs =>
          cases j with
          | zero => rfl
          | succ j =>
              simp only [List.zipWith_cons_cons, List.getD_cons_succ]
              exact ih bs j (by simpa using h1) (by simpa using h2)

theorem length_zipWith_of_eq (f : ℚ → ℚ → ℚ) (as bs : List ℚ)
    (h : as.length = bs.length) : (List.zipWith f as bs).length = as.length := by
  simp [List.length_zipWith, h]

theorem pairwise_lt_getD (l : List ℚ) (h : l.Pairwise (· < ·)) (i j : ℕ)
    (hij : i < j) (hj : j < l.length) : l.getD i 0 < l.getD j 0 := by
  have hi : i < l.length := lt_trans hij hj
  rw [List.getD_eq_getElem l 0 hi, List.getD_eq_getElem l 0 hj]
  exact List.pairwise_iff_getElem.mp h i j hi hj hij

theorem sumar_salto_length (i : ℕ) (M0 : ℚ) :
    ∀ (off : ℕ) (M : List ℚ), (sumar_salto i M0 off M).length = M.length := by
  intro off M
  induction M generalizing off with
  | nil => rfl
  | cons mv rest ih => simpa [sumar_salto] using ih (off + 1)

theorem sumar_salto_getD (i : ℕ) (M0 : ℚ) :
    ∀ (M : List ℚ) (off j : ℕ), j < M.length →
      (sumar_salto i M0 off M).getD j 0 =
        (if off + j = i then M.getD j 0 + M0 / 2
          else if i < off + j then M.getD j 0 + M0 else M.getD j 0) := by
  intro M
  induction M with
  | nil => intro off j hj; simp at hj
  | cons mv rest ih =>
      intro off j hj
      cases j with
      | zero => simp [sumar_salto]
      | succ j =>
          have hj' : j < rest.length := by simpa using hj
          have harith : off + (j + 1) = off + 1 + j := by omega
          simp only [sumar_salto, List.getD_cons_succ, ih (off + 1) j hj', harith]

theorem argminAbsAux_bestv_zero (t : ℚ) :
    ∀ (rest : List ℚ) (i best : ℕ), argminAbsAux t rest i best 0 = best := by
  intro rest
  induction rest with
  | nil => intro i best; rfl
  | cons g r ih =>
      intro i best
      unfold argminAbsAux
      rw [if_neg (not_lt.mpr (abs_nonneg _))]
      exact ih (i + 1) best

theorem argminAbsAux_first (t : ℚ) :
    ∀ (rest : List ℚ) (k i best : ℕ) (bestv : ℚ), 0 < bestv →
      k < rest.length → rest.getD k 0 = t → (∀ j, j < k → rest.getD j 0 ≠ t) →
      argminAbsAux t rest i best bestv = i + k := by
  intro rest
  induction rest with
  | nil => intro k i best bestv _ hk; simp at hk
  | cons g r ih =>
      intro k i best bestv hbv hk hkt hprev
      cases k with
      | zero =>
          have hg : g = t := hkt
          unfold argminAbsAux
          rw [hg, sub_self, abs_zero, if_pos hbv, argminAbsAux_bestv_zero]
          omega
      | succ k =>
          have hg : g ≠ t := by simpa using hprev 0 (Nat.succ_pos k)
          have habs : 0 < |g - t| := abs_pos.mpr (sub_ne_zero.mpr hg)
          have hk' : k < r.length := by simpa using hk
          have hkt' : r.getD k 0 = t := by simpa using hkt
          have hprev' : ∀ j, j < k → r.getD j 0 ≠ t := fun j hj => by
            simpa using hprev (j + 1) (Nat.succ_lt_succ hj)
          unfold argminAbsAux
          by_cases hlt : |g - t| < bestv
          · rw [if_pos hlt, ih k (i + 1) i |g - t| habs hk' hkt' hprev']
            omega
          · rw [if_neg hlt, ih k (i + 1) best bestv hbv hk' hkt' hprev']
            omega

theorem argminAbs_eq (grid : List ℚ) (t : ℚ) (hsort : grid.Pairwise (· < ·))
    (k : ℕ) (hk : k < grid.length) (ht : grid.getD k 0 = t) :
    argminAbs grid t = k := by
  cases grid with
  | nil => simp at hk
  | cons g rest =>
      obtain ⟨hhead, hrest⟩ := List.pairwise_cons.mp hsort
      have hred : argminAbs (g :: rest) t = argminAbsAux t rest 1 0 |g - t| := rfl
      cases k with
      | zero =>
          have hg : g = t := ht
          rw [hred, hg, sub_self, abs_zero, argminAbsAux_bestv_zero]
      | succ k =>
          have hk' : k < rest.length := by simpa using hk
          have hkt' : rest.getD k 0 = t := by simpa using ht
          have hmem : rest.getD k 0 ∈ rest := by
            rw [List.getD_eq_getElem rest 0 hk']
            exact List.getElem_mem hk'
          have hg : g < t := hkt' ▸ hhead _ hmem
          have hprev' : ∀ j, j < k → rest.getD j 0 ≠ t := fun j hj => by
            have := pairwise_lt_getD rest hrest j k hj hk'
            rw [hkt'] at this
            exact ne_of_lt this
          rw [hred, argminAbsAux_first t rest k 1 0 |g - t|
            (abs_pos.mpr (sub_ne_zero.mpr (ne_of_lt hg))) hk' hkt' hprev']
          omega

theorem argminAbs_getD_of_mem (grid : List ℚ) (t : ℚ) (hsort : grid.Pairwise (· < ·))
    (hmem : t ∈ grid) :
    argminAbs grid t < grid.length ∧ grid.getD (argminAbs grid t) 0 = t := by
  obtain ⟨k, hk, hget⟩ := List.mem_iff_getElem.mp hmem
  have hgetD : grid.getD k 0 = t := by rw [List.getD_eq_getElem grid 0 hk]; exact hget
  rw [argminAbs_eq grid t hsort k hk hgetD]
  exact ⟨hk, hgetD⟩

theorem tol12_pos : (0 : ℚ) < tol12 := by norm_num [tol12]

theorem insertQ_length (q : ℚ) : ∀ l : List ℚ, (insertQ q l).length = l.length + 1 := by
  intro l
  induction l with
  | nil => rfl
  | cons b rest ih =>
      unfold insertQ
      by_cases h : q ≤ b
      · rw [if_pos h]; rfl
      · rw [if_neg h]; simp [ih]

theorem sortQ_length : ∀ l : List ℚ, (sortQ l).length = l.length := by
  intro l
  induction l with
  | nil => rfl
  | cons a rest ih => simp [sortQ, insertQ_length, ih]

theorem getLastD_cons_cons {α : Type} (a b : α) (l : List α) (d : α) :
    (a :: b :: l).getLastD d = (b :: l).getLastD d := by
  rw [List.getLastD_eq_getLast?, List.getLastD_eq_getLast?, List.getLast?_cons_cons]

theorem dropLast_append_getLastD {α : Type} :
    ∀ (l : List α) (d : α), l ≠ [] → l.dropLast ++ [l.getLastD d] = l := by
  intro l
  induction l with
  | nil => intro d h; exact absurd rfl h
  | cons x rest ih =>
      intro d _
      cases rest with
      | nil => rfl
      | cons y r =>
          rw [getLastD_cons_cons]
          have := ih d (by simp)
          simp only [List.dropLast_cons₂, List.cons_append, this]

theorem chain_headD_le_getLastD :
    ∀ l : List ℚ, List.Chain' (fun a b => a + tol12 < b) l → l.headD 0 ≤ l.getLastD 0 := by
  intro l
  induction l with
  | nil => exact fun _ => le_refl 0
  | cons a rest ih =>
      intro hc
      cases rest with
      | nil => exact le_refl a
      | cons b rest' =>
          obtain ⟨hab, hc'⟩ := List.chain'_cons.mp hc
          have h1 : a ≤ b := le_of_lt (lt_trans (lt_add_of_pos_right a tol12_pos) hab)
          have h2 := ih hc'
          simp only [List.headD_cons] at h2 ⊢
          rw [getLastD_cons_cons]
          exact le_trans h1 h2

theorem corregir_vano_spec (grid M : List ℚ) (xa xb : ℚ)
    (hsort : grid.Pairwise (· < ·)) (hlen : M.length = grid.length)
    (hgap : xa + tol12 < xb) (hxa : xa ∈ grid) (hxb : xb ∈ grid) :
    (corregir_vano grid M xa xb).length = grid.length ∧
    (corregir_vano grid M xa xb).getD (argminAbs grid xa) 0 = 0 ∧
    (corregir_vano grid M xa xb).getD (argminAbs grid xb) 0 = 0 ∧
    (∀ j, j < grid.length → (grid.getD j 0 < xa ∨ xb < grid.getD j 0) →
      (corregir_vano grid M xa xb).getD j 0 = M.getD j 0) := by
  obtain ⟨hia, hga⟩ := argminAbs_getD_of_mem grid xa hsort hxa
  obtain ⟨hib, hgb⟩ := argminAbs_getD_of_mem grid xb hsort hxb
  have hab : xa < xb := lt_trans (lt_add_of_pos_right xa tol12_pos) hgap
  have hd : tol12 < xb - xa := by linarith
  have hnottol : ¬ |xb - xa| ≤ tol12 := by
    rw [abs_of_pos (by linarith : (0 : ℚ) < xb - xa)]
    exact not_le.mpr hd
  have hne : xb - xa ≠ 0 := by linarith
  have hred : corregir_vano grid M xa xb =
      List.zipWith (fun g mv =>
        if xa ≤ g ∧ g ≤ xb then
          mv - (M.getD (argminAbs grid xa) 0 +
            (M.getD (argminAbs grid xb) 0 - M.getD (argminAbs grid xa) 0) / (xb - xa) * (g - xa))
        else mv) grid M := by
    unfold corregir_vano
    rw [if_neg hnottol]
  have hgetD : ∀ j, j < grid.length →
      (corregir_vano grid M xa xb).getD j 0 =
        (if xa ≤ grid.getD j 0 ∧ grid.getD j 0 ≤ xb then
          M.getD j 0 - (M.getD (argminAbs grid xa) 0 +
            (M.getD (argminAbs grid xb) 0 - M.getD (argminAbs grid xa) 0) / (xb - xa) *
              (grid.getD j 0 - xa))
        else M.getD j 0) := by
    intro j hj
    rw [hred, getD_zipWith _ grid M j hj (hlen ▸ hj)]
  refine ⟨?_, ?_, ?_, ?_⟩
  · rw [hred]
    exact length_zipWith_of_eq _ grid M hlen.symm
  · rw [hgetD _ hia, hga, if_pos ⟨le_refl xa, le_of_lt hab⟩]
    ring
  · rw [hgetD _ hib, hgb, if_pos ⟨le_of_lt hab, le_refl xb⟩, div_mul_cancel₀ _ hne]
    ring
  · intro j hj hout
    rw [hgetD _ hj]
    rcases hout with h | h
    · exact if_neg (fun hc => absurd hc.1 (not_le.mpr h))
    · exact if_neg (fun hc => absurd hc.2 (not_le.mpr h))

theorem corregir_fold_spec (grid : List ℚ) (hsort : grid.Pairwise (· < ·)) :
    ∀ (ps M : List ℚ), M.length = grid.length →
      List.Chain' (fun a b => a + tol12 < b) ps →
      (∀ p ∈ ps, p ∈ grid) → 2 ≤ ps.length →
      ((ps.zip ps.tail).foldl (fun Mc par => corregir_vano grid Mc par.1 par.2) M).length =
        grid.length ∧
      (∀ p ∈ ps,
        ((ps.zip ps.tail).foldl (fun Mc par => corregir_vano grid Mc par.1 par.2) M).getD
          (argminAbs grid p) 0 = 0) ∧
      (∀ j, j < grid.length →
        (grid.getD j 0 < ps.headD 0 ∨ ps.getLastD 0 < grid.getD j 0) →
        ((ps.zip ps.tail).foldl (fun Mc par => corregir_vano grid Mc par.1 par.2) M).getD
          j 0 = M.getD j 0) := by
  intro ps
  induction ps with
  | nil => intro M _ _ _ hn; simp at hn
  | cons a rest ih =>
      intro M hlen hchain hmem hn
      cases rest with
      | nil => simp at hn
      | cons b rest' =>
          obtain ⟨hab, hchain'⟩ := List.chain'_cons.mp hchain
          have hzip : ((a :: b :: rest').zip (a :: b :: rest').tail) =
              (a, b) :: ((b :: rest').zip (b :: rest').tail) := rfl
          have hA := corregir_vano_spec grid M a b hsort hlen hab
            (hmem a (by simp)) (hmem b (by simp))
          have haltb : a < b := lt_trans (lt_add_of_pos_right a tol12_pos) hab
          cases rest' with
          | nil =>
              rw [hzip]
              simp only [List.foldl_cons, List.foldl_nil]
              refine ⟨hA.1, ?_, ?_⟩
              · intro p hp
                rcases List.mem_pair.mp hp with h | h
                · rw [h]; exact hA.2.1
                · rw [h]; exact hA.2.2.1
              · intro j hj hout
                simp only [List.headD_cons] at hout
                refine hA.2.2.2 j hj ?_
                rcases hout with h | h
                · exact Or.inl h
                · right
                  rw [getLastD_cons_cons] at h
                  simpa using h
          | cons c rest'' =>
              have hsub : ∀ p ∈ (b :: c :: rest''), p ∈ grid := fun p hp =>
                hmem p (List.mem_cons_of_mem a hp)
              have hIH := ih (corregir_vano grid M a b) hA.1 hchain' hsub (by simp)
              rw [hzip]
              simp only [List.foldl_cons]
              have hbLast : b ≤ (b :: c :: rest'').getLastD 0 := by
                have := chain_headD_le_getLastD (b :: c :: rest'') hchain'
                simpa using this
              refine ⟨hIH.1, ?_, ?_⟩
              · intro p hp
                rcases List.mem_cons.mp hp with h | h
                · subst h
                  obtain ⟨hia, hga⟩ := argminAbs_getD_of_mem grid p hsort (hmem p (by simp))
                  rw [hIH.2.2 (argminAbs grid p) hia
                    (Or.inl (by rw [hga]; simpa using haltb))]
                  exact hA.2.1
                · exact hIH.2.1 p h
              · intro j hj hout
                simp only [List.headD_cons] at hout
                rcases hout with h | h
                · rw [hIH.2.2 j hj (Or.inl (by simpa using lt_trans h haltb))]
                  exact hA.2.2.2 j hj (Or.inl h)
                · rw [getLastD_cons_cons] at h
                  rw [hIH.2.2 j hj (Or.inr (by simpa using h))]
                  refine hA.2.2.2 j hj (Or.inr ?_)
                  exact lt_of_le_of_lt hbLast h

theorem dictInsert_nil (k : String) (v : ℚ) : dictInsert [] k v = [(k, v)] := rfl

theorem dictInsert_two (k1 k2 : String) (v1 v2 : ℚ) (h : k1 ≠ k2) :
    dictInsert (dictInsert [] k1 v1) k2 v2 = [(k1, v1), (k2, v2)] := by
  simp [dictInsert, h]

theorem dictGet_cons_self (k : String) (v : ℚ) (d : Dict) :
    dictGet ((k, v) :: d) k = some v := by
  simp [dictGet]

theorem dictGet_cons_ne (k' k : String) (v' : ℚ) (d : Dict) (h : k' ≠ k) :
    dictGet ((k', v') :: d) k = dictGet d k := by
  simp [dictGet, h]

theorem dictInsert_of_get_none :
    ∀ (d : Dict) (k : String) (v : ℚ), dictGet d k = none →
      dictInsert d k v = d ++ [(k, v)] := by
  intro d
  induction d with
  | nil => intro k v _; rfl
  | cons p rest ih =>
      intro k v h
      obtain ⟨k', v'⟩ := p
      by_cases hk : k' = k
      · rw [hk, dictGet_cons_self] at h; cases h
      · rw [dictGet_cons_ne k' k v' rest hk] at h
        simp [dictInsert, hk, ih k v h]

theorem dictValuesSum_append_single (d : Dict) (k : String) (v : ℚ) :
    dictValuesSum (d ++ [(k, v)]) = dictValuesSum d + v := by
  simp [dictValuesSum]

theorem dictGet_append_none (d : Dict) (k k' : String) (v : ℚ)
    (hnone : dictGet d k' = none) (hne : k' ≠ k) :
    dictGet (d ++ [(k, v)]) k' = none := by
  induction d with
  | nil =>
      have hne' : ¬ k = k' := fun h => hne h.symm
      simp [dictGet, hne']
  | cons p rest ih =>
      obtain ⟨k0, v0⟩ := p
      by_cases hk : k0 = k'
      · rw [hk, dictGet_cons_self] at hnone; cases hnone
      · rw [dictGet_cons_ne k0 k' v0 rest hk] at hnone
        rw [List.cons_append, dictGet_cons_ne k0 k' v0 _ hk]
        exact ih hnone

theorem foldl_insert_sum :
    ∀ (pairs : List (Apoyo × ℚ)) (d : Dict),
      (∀ par ∈ pairs, dictGet d par.1.nombre = none) →
      (pairs.map (fun par => par.1.nombre)).Nodup →
      dictValuesSum (pairs.foldl (fun dc par => dictInsert dc par.1.nombre par.2) d) =
        dictValuesSum d + (pairs.map Prod.snd).sum := by
  intro pairs
  induction pairs with
  | nil => intro d _ _; simp
  | cons p rest ih =>
      intro d hfresh hnodup
      rw [List.foldl_cons,
        dictInsert_of_get_none d p.1.nombre p.2 (hfresh p (List.mem_cons_self p rest))]
      obtain ⟨hhead, htail⟩ := List.nodup_cons.mp hnodup
      have hfresh' : ∀ par ∈ rest, dictGet (d ++ [(p.1.nombre, p.2)]) par.1.nombre = none := by
        intro par hpar
        refine dictGet_append_none d p.1.nombre par.1.nombre p.2
          (hfresh par (List.mem_cons_of_mem p hpar)) ?_
        intro hEq
        have : par.1.nombre ∈ rest.map (fun q => q.1.nombre) :=
          List.mem_map_of_mem (fun q => q.1.nombre) hpar
        rw [hEq] at this
        exact hhead this
      rw [ih (d ++ [(p.1.nombre, p.2)]) hfresh' htail, dictValuesSum_append_single]
      simp only [List.map_cons, List.sum_cons]
      ring

theorem map_fst_zip_take {α β : Type} :
    ∀ (l1 : List α) (l2 : List β), (l1.zip l2).map Prod.fst = l1.take l2.length := by
  intro l1
  induction l1 with
  | nil => intro l2; simp
  | cons a r ih =>
      intro l2
      cases l2 with
      | nil => simp
      | cons b s => simp [List.zip_cons_cons, ih s]

theorem reacciones_dos_ok (cargas : List Carga) (a b : Apoyo) (r : Dict)
    (hab : a.nombre ≠ b.nombre) (h : reacciones_dos_apoyos cargas a b = .ok r) :
    r = [(a.nombre, sumCargas cargas - sumMomentos cargas a.posicion / (b.posicion - a.posicion)),
         (b.nombre, sumMomentos cargas a.posicion / (b.posicion - a.posicion))] := by
  simp only [reacciones_dos_apoyos] at h
  by_cases hd : |b.posicion - a.posicion| < tol12
  · rw [if_pos hd] at h; cases h
  · rw [if_neg hd] at h
    injection h with h'
    rw [← h', dictInsert_two _ _ _ _ hab]

theorem mkViga_par (L E I : ℚ) (a b : Apoyo) (v : Viga)
    (h : mkViga L E I [a, b] = .ok v) :
    (v.apoyos = [a, b] ∨ v.apoyos = [b, a]) ∧ v.cargas = [] := by
  simp only [mkViga] at h
  split_ifs at h
  injection h with h'
  subst h'
  constructor
  · by_cases hab : a.posicion ≤ b.posicion
    · left; simp [sortApoyos, insertApoyo, hab]
    · right; simp [sortApoyos, insertApoyo, hab]
  · rfl

theorem agregar_carga_ok (v v' : Viga) (c : Carga) (h : agregar_carga v c = .ok v') :
    v' = { v with cargas := v.cargas ++ [c], cacheReacciones := none } := by
  cases c with
  | puntual m p =>
      simp only [agregar_carga] at h
      split_ifs at h
      injection h with h'
      exact h'.symm
  | momento m p ev =>
      simp only [agregar_carga] at h
      split_ifs at h
      injection h with h'
      exact h'.symm
  | uniforme w a b =>
      simp only [agregar_carga] at h
      split_ifs at h
      injection h with h'
      exact h'.symm
  | trapezoidal w1 w2 a b =>
      simp only [agregar_carga] at h
      split_ifs at h
      injection h with h'
      exact h'.symm

theorem agregar_cargas_ok : ∀ (cs : List Carga) (v v' : Viga),
    agregar_cargas v cs = .ok v' →
    v'.apoyos = v.apoyos ∧ v'.cargas = v.cargas ++ cs ∧ v'.longitud = v.longitud := by
  intro cs
  induction cs with
  | nil =>
      intro v v' h
      simp only [agregar_cargas] at h
      injection h with h'
      subst h'
      simp
  | cons c rest ih =>
      intro v v' h
      simp only [agregar_cargas] at h
      cases hc : agregar_carga v c with
      | error e => rw [hc] at h; cases h
      | ok w =>
          rw [hc] at h
          obtain ⟨ha, hcar, hlon⟩ := ih w v' h
          have hw := agregar_carga_ok v w c hc
          subst hw
          refine ⟨ha, ?_, hlon⟩
          rw [hcar]
          simp

theorem viga_auxiliar_ok (L E I : ℚ) (a b : Apoyo) (cs : List Carga) (v : Viga)
    (h : viga_auxiliar L E I a b cs = .ok v) :
    (v.apoyos = [a, b] ∨ v.apoyos = [b, a]) ∧ v.cargas = cs := by
  simp only [viga_auxiliar] at h
  cases hm : mkViga L E I [a, b] with
  | error e => rw [hm] at h; cases h
  | ok v0 =>
      rw [hm] at h
      obtain ⟨hap0, hcg0⟩ := mkViga_par L E I a b v0 hm
      obtain ⟨hap, hcg, _⟩ := agregar_cargas_ok cs v0 v h
      exact ⟨by rw [hap]; exact hap0, by rw [hcg, hcg0]; simp⟩

theorem calc_dos_ok (v : Viga) (a b : Apoyo) (r : Dict)
    (hap : v.apoyos = [a, b] ∨ v.apoyos = [b, a]) (hab : a.nombre ≠ b.nombre)
    (h : calc_dos v = .ok r) :
    (dictGet r a.nombre).getD 0 + (dictGet r b.nombre).getD 0 = sumCargas v.cargas ∧
    (∀ k, k ≠ a.nombre → k ≠ b.nombre → dictGet r k = none) := by
  rcases hap with hap | hap
  · simp only [calc_dos, hap] at h
    have hr := reacciones_dos_ok v.cargas a b r hab h
    subst hr
    constructor
    · rw [dictGet_cons_self, dictGet_cons_ne _ _ _ _ hab, dictGet_cons_self]
      simp only [Option.getD_some]
      ring
    · intro k hka hkb
      rw [dictGet_cons_ne _ _ _ _ (fun hh => hka hh.symm),
        dictGet_cons_ne _ _ _ _ (fun hh => hkb hh.symm)]
      rfl
  · simp only [calc_dos, hap] at h
    have hr := reacciones_dos_ok v.cargas b a r (fun hh => hab hh.symm) h
    subst hr
    constructor
    · rw [dictGet_cons_ne _ _ _ _ (fun hh => hab hh.symm), dictGet_cons_self,
        dictGet_cons_self]
      simp only [Option.getD_some]
      ring
    · intro k hka hkb
      rw [dictGet_cons_ne _ _ _ _ (fun hh => hkb hh.symm),
        dictGet_cons_ne _ _ _ _ (fun hh => hka hh.symm)]
      rfl

theorem cargas_equivalentes_sum : ∀ (pairs : List (Apoyo × ℚ)) (cs : List Carga),
    cargas_equivalentes pairs = .ok cs →
    sumCargas cs = -((pairs.map Prod.snd).sum) := by
  intro pairs
  induction pairs with
  | nil =>
      intro cs h
      injection h with h'
      subst h'
      simp [sumCargas]
  | cons p rest ih =>
      intro cs h
      obtain ⟨ap, rv⟩ := p
      simp only [cargas_equivalentes] at h
      cases hm : mkCargaPuntual (-rv) ap.posicion with
      | error e => rw [hm] at h; cases h
      | ok c =>
          rw [hm] at h
          cases hr : cargas_equivalentes rest with
          | error e => rw [hr] at h; cases h
          | ok cs' =>
              rw [hr] at h
              injection h with h'
              subst h'
              have hc : c = .puntual (-rv) ap.posicion := by
                simp only [mkCargaPuntual] at hm
                split_ifs at hm
                injection hm with h2
                exact h2.symm
              subst hc
              simp only [sumCargas, List.map_cons, List.sum_cons, total_load]
              have := ih cs' hr
              simp only [sumCargas] at this
              rw [this]
              ring

theorem apoyos_decomp (v : Viga) (hn : 3 ≤ v.apoyos.length) :
    v.apoyos = apoyo_izq v :: (apoyos_redundantes v ++ [apoyo_der v]) := by
  rcases hv : v.apoyos with _ | ⟨a, tail⟩
  · rw [hv] at hn; simp at hn
  · have htail_ne : tail ≠ [] := by
      intro h
      rw [h] at hv
      rw [hv] at hn
      simp at hn
    have h1 : apoyo_izq v = a := by simp [apoyo_izq, hv]
    have h2 : apoyos_redundantes v = tail.dropLast := by simp [apoyos_redundantes, hv]
    have h3 : apoyo_der v = tail.getLastD ⟨0, ""⟩ := by
      cases tail with
      | nil => exact absurd rfl htail_ne
      | cons b t2 =>
          simp only [apoyo_der, hv]
          exact getLastD_cons_cons a b t2 _
    rw [h1, h2, h3, dropLast_append_getLastD tail _ htail_ne]

theorem nombres_hiper (v : Viga) (hn : 3 ≤ v.apoyos.length)
    (hnames : (v.apoyos.map Apoyo.nombre).Nodup) :
    (apoyo_izq v).nombre ≠ (apoyo_der v).nombre ∧
    (∀ ap ∈ apoyos_redundantes v,
      ap.nombre ≠ (apoyo_izq v).nombre ∧ ap.nombre ≠ (apoyo_der v).nombre) ∧
    ((apoyos_redundantes v).map Apoyo.nombre).Nodup := by
  rw [apoyos_decomp v hn] at hnames
  simp only [List.map_cons, List.map_append, List.nodup_cons] at hnames
  obtain ⟨hhead, htail⟩ := hnames
  rw [List.nodup_append] at htail
  obtain ⟨hnd_reds, _, hdisj⟩ := htail
  refine ⟨?_, ?_, hnd_reds⟩
  · intro hEq
    exact hhead (List.mem_append_right _ (by simp [hEq]))
  · intro ap hap
    have hmem : ap.nombre ∈ (apoyos_redundantes v).map Apoyo.nombre :=
      List.mem_map_of_mem Apoyo.nombre hap
    constructor
    · intro hEq
      exact hhead (List.mem_append_left _ (hEq ▸ hmem))
    · intro hEq
      exact hdisj hmem (by simp [hEq])

/-! Theorems for the claims. -/

/-- C1.  For a beam with exactly two supports L (left) and R (right) and no
memoized result, calcular_reacciones fails when the distance d between the
supports is numerically zero (< 1e-12), and otherwise returns the mapping
with R_R = (sum of moment_about the left position over all loads) / d and
R_L = (sum of total_load over all loads) - R_R. -/
theorem c1_reacciones_dos_apoyos (defl : Viga → ℚ → ℚ) (v : Viga) (izq der : Apoyo)
    (hcache : v.cacheReacciones = none) (hap : v.apoyos = [izq, der]) :
    (|der.posicion - izq.posicion| < tol12 →
      ∃ e, (calcular_reacciones defl v).1 = .error e) ∧
    (¬ |der.posicion - izq.posicion| < tol12 →
      (calcular_reacciones defl v).1 = .ok (dictInsert
        (dictInsert [] izq.nombre
          (sumCargas v.cargas - sumMomentos v.cargas izq.posicion / (der.posicion - izq.posicion)))
        der.nombre (sumMomentos v.cargas izq.posicion / (der.posicion - izq.posicion)))) := by
  obtain ⟨L, E, I, aps, cs, cache⟩ := v
  simp only at hcache hap
  subst hcache hap
  constructor
  · intro hd
    exact ⟨"Los apoyos estan demasiado cerca", by
      simp only [calcular_reacciones, reacciones_dos_apoyos, if_pos hd]⟩
  · intro hd
    simp only [calcular_reacciones, reacciones_dos_apoyos, if_neg hd]

/-- Witness for C1 at the spec scenario: L = 6 m, supports at 0 and 6, point
force 2000 N at x = 2, giving R_B = 2000·2/6 and R_A = 2000 - R_B. -/
theorem c1_reacciones_dos_apoyos_witness :
    (calcular_reacciones defl0 vigaC1).1 = .ok [("A", 4000 / 3), ("B", 2000 / 3)] ∧
    (4000 / 3 : ℚ) = 2000 - 2000 * 2 / 6 ∧ (2000 / 3 : ℚ) = 2000 * 2 / 6 := by
  have h := (c1_reacciones_dos_apoyos defl0 vigaC1 ⟨0, "A"⟩ ⟨6, "B"⟩ rfl rfl).2
    (by norm_num [tol12])
  refine ⟨?_, by norm_num, by norm_num⟩
  rw [h]
  norm_num [vigaC1, dictInsert, sumCargas, sumMomentos, total_load, moment_about]
  decide

/-- C10.  Constructing a beam with an empty support list succeeds whenever
its geometry and material constants are positive; the two default supports
"A" at 0 and "B" at the beam length are created, and the resulting beam is
classified isostatic. -/
theorem c10_apoyos_por_defecto (L E I : ℚ) (hL : 0 < L) (hE : 0 < E) (hI : 0 < I) :
    mkViga L E I [] = .ok ⟨L, E, I, [⟨0, "A"⟩, ⟨L, "B"⟩], [], none⟩ ∧
    tipo_sistema ⟨L, E, I, [⟨0, "A"⟩, ⟨L, "B"⟩], [], none⟩ = "isostatico" := by
  refine ⟨?_, by simp [tipo_sistema]⟩
  simp only [mkViga, if_neg (not_le.mpr hL), if_neg (not_le.mpr hE), if_neg (not_le.mpr hI)]

/-- Witness for C10 at L = 6, E = 1, I = 1. -/
theorem c10_apoyos_por_defecto_witness :
    mkViga 6 1 1 [] = .ok ⟨6, 1, 1, [⟨0, "A"⟩, ⟨6, "B"⟩], [], none⟩ ∧
    tipo_sistema ⟨6, 1, 1, [⟨0, "A"⟩, ⟨6, "B"⟩], [], none⟩ = "isostatico" :=
  c10_apoyos_por_defecto 6 1 1 (by norm_num) (by norm_num) (by norm_num)

/-- C8 (failing input).  agregar_carga accepts a distributed load whose span
[-2, 3] is not contained in [0, 6]: CargaUniforme never validates a negative
start and agregar_carga only checks the end against the length, so the load
is appended with no ValidationError, while point loads beyond the length are
rejected as the claim describes. -/
theorem c8_carga_fuera_aceptada :
    mkCargaUniforme 1000 (-2) 3 = .ok (.uniforme 1000 (-2) 3) ∧
    agregar_carga vigaC8 (.uniforme 1000 (-2) 3) =
      .ok ⟨6, 1, 1, [⟨0, "A"⟩, ⟨6, "B"⟩], [.uniforme 1000 (-2) 3], none⟩ ∧
    ¬ (0 ≤ (-2 : ℚ)) ∧
    agregar_carga vigaC8 (.puntual 100 7) = .error "La carga puntual esta fuera de la viga" := by
  refine ⟨by norm_num [mkCargaUniforme], by norm_num [agregar_carga, vigaC8], by norm_num,
    by norm_num [agregar_carga, vigaC8]⟩

/-- C6.  The assembled total distributed intensity equals, at every grid
point, the sum of the per-load indicator contributions of the claim: each
distributed load contributes on the half-open interval [inicio, fin), closed
instead when the load end coincides (within the source's 1e-12 check) with
the beam's right end; point forces and point moments contribute zero
everywhere, so dropping them leaves w_total unchanged. -/
theorem c6_w_total_intervalos (v : Viga) (xv : ℚ) :
    construir_w_total_continua v xv =
      (v.cargas.map (fun c => contribucion_w_spec v.longitud c xv)).sum ∧
    construir_w_total_continua v xv = construir_w_total_continua (soloDistribuidas v) xv := by
  constructor
  · unfold construir_w_total_continua
    refine congrArg List.sum (List.map_congr_left ?_)
    intro c _
    cases c with
    | puntual m p => rfl
    | momento m p ev => rfl
    | uniforme w a b =>
        simp only [contribucion_w, contribucion_w_spec]
        by_cases hco : |b - v.longitud| < tol12
        · have hiff : ((a ≤ xv ∧ xv < b) ∨ (|b - v.longitud| < tol12 ∧ a ≤ xv ∧ xv ≤ b)) ↔
              (a ≤ xv ∧ xv ≤ b) := by
            constructor
            · rintro (h | h)
              · exact ⟨h.1, le_of_lt h.2⟩
              · exact h.2
            · intro h; exact Or.inr ⟨hco, h⟩
          rw [if_pos hco, if_congr hiff rfl rfl]
        · have hiff : ((a ≤ xv ∧ xv < b) ∨ (|b - v.longitud| < tol12 ∧ a ≤ xv ∧ xv ≤ b)) ↔
              (a ≤ xv ∧ xv < b) := by
            constructor
            · rintro (h | h)
              · exact h
              · exact absurd h.1 hco
            · intro h; exact Or.inl h
          rw [if_neg hco, if_congr hiff rfl rfl]
    | trapezoidal w1 w2 a b =>
        simp only [contribucion_w, contribucion_w_spec]
        by_cases hco : |b - v.longitud| < tol12
        · have hiff : ((a ≤ xv ∧ xv < b) ∨ (|b - v.longitud| < tol12 ∧ a ≤ xv ∧ xv ≤ b)) ↔
              (a ≤ xv ∧ xv ≤ b) := by
            constructor
            · rintro (h | h)
              · exact ⟨h.1, le_of_lt h.2⟩
              · exact h.2
            · intro h; exact Or.inr ⟨hco, h⟩
          rw [if_pos hco, if_congr hiff rfl rfl]
        · have hiff : ((a ≤ xv ∧ xv < b) ∨ (|b - v.longitud| < tol12 ∧ a ≤ xv ∧ xv ≤ b)) ↔
              (a ≤ xv ∧ xv < b) := by
            constructor
            · rintro (h | h)
              · exact h
              · exact absurd h.1 hco
            · intro h; exact Or.inl h
          rw [if_neg hco, if_congr hiff rfl rfl]
  · unfold construir_w_total_continua soloDistribuidas
    exact (sum_map_filter_eq _ _ (fun c hc => by
      cases c with
      | puntual m p => rfl
      | momento m p ev => rfl
      | uniforme w a b => simp at hc
      | trapezoidal w1 w2 a b => simp at hc) v.cargas).symm

/-- C7 (counterexample).  Adding a point moment changes the solved reactions
(it enters moment_about), hence the V array of the evaluation pipeline: for
the beam of length 6 with supports at 0 and 6 and a single 600 N·m moment at
x = 3, the reactions are (-100, 100) and the assembled V on the grid
[0, 3, 6] differs pointwise from the moment-free beam, whose V is all zero.
This refutes the claim that the returned V is identical whether or not point
moments are present among the loads. -/
theorem c7_momento_altera_V_counterexample :
    (calcular_reacciones defl0 vigaC7).1 = .ok [("A", -100), ("B", 100)] ∧
    (calcular_reacciones defl0 (soloSinMomentos vigaC7)).1 = .ok [("A", 0), ("B", 0)] ∧
    evaluar_V defl0 vigaC7 [0, 3, 6] ≠ evaluar_V defl0 (soloSinMomentos vigaC7) [0, 3, 6] := by
  have h1 : (calcular_reacciones defl0 vigaC7).1 = .ok [("A", -100), ("B", 100)] := by
    norm_num [calcular_reacciones, vigaC7, reacciones_dos_apoyos, tol12, sumCargas,
      sumMomentos, total_load, moment_about, dictInsert]
    decide
  have h2 : (calcular_reacciones defl0 (soloSinMomentos vigaC7)).1 = .ok [("A", 0), ("B", 0)] := by
    norm_num [calcular_reacciones, vigaC7, soloSinMomentos, reacciones_dos_apoyos, tol12,
      sumCargas, sumMomentos, total_load, moment_about, dictInsert]
    decide
  have hne : construir_V vigaC7 [("A", -100), ("B", 100)] [0, 3, 6] ≠
      construir_V (soloSinMomentos vigaC7) [("A", 0), ("B", 0)] [0, 3, 6] := by
    intro h
    have h0 := congrArg (fun l => l.getD 0 0) h
    norm_num [construir_V, vigaC7, soloSinMomentos, saltos_reacciones, saltos_puntuales,
      dictGet, Hhalf, construir_w_total_continua, contribucion_w, cumtrapz, cumtrapzGo] at h0
  refine ⟨h1, h2, ?_⟩
  unfold evaluar_V
  rw [h1, h2]
  exact hne

/-- C7 (amended).  A point moment's shear contribution is identically zero,
and the V assembly of the evaluation pipeline ignores point moments: with the
same grid and the same reactions, removing every point moment from the load
list leaves the V array pointwise unchanged.  (End to end, a point moment can
still change V because it changes the solved reactions, as the counterexample
records.) -/
theorem c7_momentos_no_afectan_V (v : Viga) (r : Dict) (grid : List ℚ)
    (M0 p : ℚ) (ev : Bool) (xv : ℚ) :
    shear_expression (.momento M0 p ev) xv = 0 ∧
    construir_V v r grid = construir_V (soloSinMomentos v) r grid := by
  refine ⟨rfl, ?_⟩
  unfold construir_V
  have hw : ∀ x : ℚ, construir_w_total_continua (soloSinMomentos v) x =
      construir_w_total_continua v x := by
    intro x
    unfold construir_w_total_continua soloSinMomentos
    exact sum_map_filter_eq _ _ (fun c hc => by
      cases c with
      | puntual m q => simp at hc
      | momento m q e => rfl
      | uniforme w a b => simp at hc
      | trapezoidal w1 w2 a b => simp at hc) v.cargas
  have hp : ∀ x : ℚ, saltos_puntuales (soloSinMomentos v).cargas x =
      saltos_puntuales v.cargas x := by
    intro x
    unfold saltos_puntuales soloSinMomentos
    exact sum_map_filter_eq _ _ (fun c hc => by
      cases c with
      | puntual m q => simp at hc
      | momento m q e => rfl
      | uniforme w a b => simp at hc
      | trapezoidal w1 w2 a b => simp at hc) v.cargas
  have hap : (soloSinMomentos v).apoyos = v.apoyos := rfl
  have hL : (soloSinMomentos v).longitud = v.longitud := rfl
  rw [hap]
  refine congrArg₂ _ (List.map_congr_left fun x _ => ?_) (congrArg₂ _ (List.map_congr_left fun x _ => ?_) rfl)
  · rw [hp]
  · rw [hw]

/-- C3.  Point-moment jumps in the evaluation pipeline, over a strictly
increasing grid (as built by the pipeline): when the isclose lookup finds the
grid point that coincides with the moment position, M gains +magnitude/2
there and +magnitude at every grid point strictly beyond the position, and is
unchanged before it; when no grid point is close, M gains +magnitude exactly
at the points strictly beyond the position; and a point moment placed exactly
at a support position with en_vano = false is skipped, producing no jump at
all in the M array. -/
theorem c3_saltos_momentos (grid M : List ℚ) (xm M0 : ℚ)
    (hsort : grid.Pairwise (· < ·)) (hlen : M.length = grid.length) :
    (∀ i, findCloseIdx grid xm = some i → grid.getD i 0 = xm →
      ∀ j, j < grid.length →
        (aplicar_salto_momento grid M xm M0).getD j 0 =
          M.getD j 0 + (if grid.getD j 0 = xm then M0 / 2
            else if xm < grid.getD j 0 then M0 else 0)) ∧
    (findCloseIdx grid xm = none →
      ∀ j, j < grid.length →
        (aplicar_salto_momento grid M xm M0).getD j 0 =
          M.getD j 0 + (if xm < grid.getD j 0 then M0 else 0)) ∧
    (∀ (apoyos : List Apoyo) (rest : List Carga) (ap : Apoyo),
      ap ∈ apoyos → ap.posicion = xm →
      aplicar_saltos_momentos apoyos (.momento M0 xm false :: rest) grid M =
        aplicar_saltos_momentos apoyos rest grid M) := by
  refine ⟨?_, ?_, ?_⟩
  · intro i hmatch hxi j hj
    have hjM : j < M.length := hlen ▸ hj
    unfold aplicar_salto_momento
    rw [hmatch, sumar_salto_getD i M0 M 0 j hjM]
    simp only [Nat.zero_add]
    by_cases hji : j = i
    · subst hji
      rw [if_pos rfl, if_pos hxi]
    · rw [if_neg hji]
      rcases Nat.lt_or_ge i j with hij | hij
      · have hgt : xm < grid.getD j 0 := hxi ▸ pairwise_lt_getD grid hsort i j hij hj
        rw [if_pos hij, if_neg (ne_of_gt hgt), if_pos hgt]
      · have hji' : j < i := lt_of_le_of_ne hij hji
        have hi : i < grid.length := by
          rcases List.findIdx?_eq_some_iff_findIdx_eq.mp hmatch with ⟨h, _⟩
          exact h
        have hlt : grid.getD j 0 < xm := hxi ▸ pairwise_lt_getD grid hsort j i hji' hi
        rw [if_neg (by omega), if_neg (ne_of_lt hlt), if_neg (not_lt.mpr (le_of_lt hlt))]
        ring
  · intro hnone j hj
    unfold aplicar_salto_momento
    rw [hnone, getD_zipWith _ grid M j hj (hlen ▸ hj)]
    by_cases hgt : xm < grid.getD j 0
    · rw [if_pos hgt, if_pos hgt]
    · rw [if_neg hgt, if_neg hgt]
      ring
  · intro apoyos rest ap hmem hpos
    unfold aplicar_saltos_momentos
    rw [List.foldl_cons]
    have hany : (apoyos.any fun ap2 => decide (|xm - ap2.posicion| < tol12)) = true := by
      refine List.any_eq_true.mpr ⟨ap, hmem, ?_⟩
      rw [hpos, sub_self, abs_zero]
      exact decide_eq_true (by norm_num [tol12])
    simp [hany]

/-- Witness for C3 on the grid [0, 1, 2] with M = [5, 5, 5], a moment of
magnitude 10 at x = 1 (exact grid point at index 1), and the same moment
suppressed at a support at x = 1 with en_vano = false. -/
theorem c3_saltos_momentos_witness :
    (aplicar_salto_momento [0, 1, 2] [5, 5, 5] 1 10).getD 0 0 = 5 ∧
    (aplicar_salto_momento [0, 1, 2] [5, 5, 5] 1 10).getD 1 0 = 5 + 10 / 2 ∧
    (aplicar_salto_momento [0, 1, 2] [5, 5, 5] 1 10).getD 2 0 = 5 + 10 ∧
    aplicar_saltos_momentos [⟨1, "B"⟩] [.momento 10 1 false] [0, 1, 2] [5, 5, 5] = [5, 5, 5] := by
  have hsort : List.Pairwise (· < ·) [(0 : ℚ), 1, 2] := by norm_num
  have h := c3_saltos_momentos [0, 1, 2] [5, 5, 5] 1 10 hsort rfl
  have hmatch : findCloseIdx [0, 1, 2] 1 = some 1 := by
    norm_num [findCloseIdx, npIsClose, List.findIdx?, tol12, rtol5]
  refine ⟨?_, ?_, ?_, ?_⟩
  · rw [h.1 1 hmatch (by norm_num) 0 (by norm_num)]; norm_num
  · rw [h.1 1 hmatch (by norm_num) 1 (by norm_num)]; norm_num
  · rw [h.1 1 hmatch (by norm_num) 2 (by norm_num)]; norm_num
  · exact h.2.2 [⟨1, "B"⟩] [] ⟨1, "B"⟩ (by simp) rfl

/-- C5.  For a beam with at least two supports, after the deflection
correction the y array is exactly 0 at the grid points nearest the two
extreme supports — located as the minimum and maximum of the sorted support
positions, independent of list order — and the subtracted affine function is
applied over the entire grid.  Hypotheses: the grid is strictly increasing
and contains the two extreme positions (the pipeline puts every support
position in the grid), and the extreme supports are farther apart than the
1e-12 guard, as the 1 mm support validation guarantees. -/
theorem c5_correccion_deflexion (apoyos : List Apoyo) (grid y ps : List ℚ)
    (hsort : grid.Pairwise (· < ·)) (hlen : y.length = grid.length)
    (hn : 2 ≤ apoyos.length)
    (hps : sortQ (apoyos.map (·.posicion)) = ps)
    (hizq : ps.headD 0 ∈ grid) (hder : ps.getLastD 0 ∈ grid)
    (hgap : tol12 < |ps.getLastD 0 - ps.headD 0|) :
    (correccion_deflexion apoyos grid y).getD (argminAbs grid (ps.headD 0)) 0 = 0 ∧
    (correccion_deflexion apoyos grid y).getD (argminAbs grid (ps.getLastD 0)) 0 = 0 ∧
    (∀ j, j < grid.length →
      (correccion_deflexion apoyos grid y).getD j 0 =
        y.getD j 0 - (y.getD (argminAbs grid (ps.headD 0)) 0 +
          (y.getD (argminAbs grid (ps.getLastD 0)) 0 - y.getD (argminAbs grid (ps.headD 0)) 0) /
            (ps.getLastD 0 - ps.headD 0) * (grid.getD j 0 - ps.headD 0))) := by
  obtain ⟨hi1, hg1⟩ := argminAbs_getD_of_mem grid (ps.headD 0) hsort hizq
  obtain ⟨hi2, hg2⟩ := argminAbs_getD_of_mem grid (ps.getLastD 0) hsort hder
  have hne : ps.getLastD 0 - ps.headD 0 ≠ 0 := by
    have h0 : (0 : ℚ) < tol12 := by norm_num [tol12]
    exact abs_pos.mp (lt_trans h0 hgap)
  have hmain : ∀ j, j < grid.length →
      (correccion_deflexion apoyos grid y).getD j 0 =
        y.getD j 0 - (y.getD (argminAbs grid (ps.headD 0)) 0 +
          (y.getD (argminAbs grid (ps.getLastD 0)) 0 - y.getD (argminAbs grid (ps.headD 0)) 0) /
            (ps.getLastD 0 - ps.headD 0) * (grid.getD j 0 - ps.headD 0)) := by
    intro j hj
    unfold correccion_deflexion
    rw [if_pos hn, hps, if_pos hgap, getD_zipWith _ grid y j hj (hlen ▸ hj)]
  refine ⟨?_, ?_, hmain⟩
  · rw [hmain _ hi1, hg1]
    ring
  · rw [hmain _ hi2, hg2, div_mul_cancel₀ _ hne]
    ring

/-- Witness for C5 with a deliberately unsorted support list [B at 6, A at 0]
over the grid [0, 3, 6] and y = [1, 2, 4]: the corrected deflection is 0 at
both extreme supports and -1/2 at the midpoint. -/
theorem c5_correccion_deflexion_witness :
    (correccion_deflexion [⟨6, "B"⟩, ⟨0, "A"⟩] [0, 3, 6] [1, 2, 4]).getD 0 0 = 0 ∧
    (correccion_deflexion [⟨6, "B"⟩, ⟨0, "A"⟩] [0, 3, 6] [1, 2, 4]).getD 2 0 = 0 ∧
    (correccion_deflexion [⟨6, "B"⟩, ⟨0, "A"⟩] [0, 3, 6] [1, 2, 4]).getD 1 0 = -(1 / 2) := by
  have h := c5_correccion_deflexion [⟨6, "B"⟩, ⟨0, "A"⟩] [0, 3, 6] [1, 2, 4] [0, 6]
    (by norm_num) rfl (by norm_num) (by norm_num [sortQ, insertQ]) (by norm_num)
    (by norm_num) (by norm_num [tol12])
  have ha : argminAbs [0, 3, 6] (([0, 6] : List ℚ).headD 0) = 0 := by
    norm_num [argminAbs, argminAbsAux]
  have hb : argminAbs [0, 3, 6] (([0, 6] : List ℚ).getLastD 0) = 2 := by
    norm_num [argminAbs, argminAbsAux]
  rw [ha, hb] at h
  refine ⟨h.1, h.2.1, ?_⟩
  rw [h.2.2 1 (by norm_num)]
  norm_num [List.getLastD]

/-- C4.  The per-span affine moment correction runs only for beams with 3 or
more supports: for a 2-support beam the M array is returned unchanged, while
for 3 or more supports the correction over consecutive position-sorted spans
leaves M equal to 0 at the grid point nearest every interior support and
leaves every grid point outside the extreme supports (the cantilever
regions) unchanged.  Hypotheses: strictly increasing grid containing the
support positions (as the pipeline builds it) and consecutive sorted support
positions separated by more than the 1e-12 degenerate-span guard (the 1 mm
support validation guarantees this). -/
theorem c4_correccion_afin_por_vano (apoyos : List Apoyo) (grid M ps : List ℚ)
    (hsort : grid.Pairwise (· < ·)) (hlen : M.length = grid.length) :
    (apoyos.length = 2 → correccion_afin_vanos apoyos grid M = M) ∧
    (3 ≤ apoyos.length → sortQ (apoyos.map (·.posicion)) = ps →
      List.Chain' (fun a b => a + tol12 < b) ps → (∀ p ∈ ps, p ∈ grid) →
      (∀ p ∈ ps, ps.headD 0 < p → p < ps.getLastD 0 →
        (correccion_afin_vanos apoyos grid M).getD (argminAbs grid p) 0 = 0) ∧
      (∀ j, j < grid.length →
        (grid.getD j 0 < ps.headD 0 ∨ ps.getLastD 0 < grid.getD j 0) →
        (correccion_afin_vanos apoyos grid M).getD j 0 = M.getD j 0)) := by
  constructor
  · intro h2
    unfold correccion_afin_vanos
    rw [if_neg (by omega)]
  · intro h3 hps hchain hmem
    have hlenps : 2 ≤ ps.length := by
      have := sortQ_length (apoyos.map (·.posicion))
      rw [hps] at this
      simp only [List.length_map] at this
      omega
    have hred : correccion_afin_vanos apoyos grid M =
        (ps.zip ps.tail).foldl (fun Mc par => corregir_vano grid Mc par.1 par.2) M := by
      unfold correccion_afin_vanos
      rw [if_pos h3, hps]
    have hF := corregir_fold_spec grid hsort ps M hlen hchain hmem hlenps
    constructor
    · intro p hp _ _
      rw [hred]
      exact hF.2.1 p hp
    · intro j hj hout
      rw [hred]
      exact hF.2.2 j hj hout

/-- Witness for C4: three supports at 1, 2, 4 over the grid
[0, 1, 2, 3, 4, 5] with M constantly 7 — after the correction M is 0 at the
interior support x = 2 while the cantilever points x = 0 and x = 5 keep the
value 7 — and a two-support beam for which the correction is the identity. -/
theorem c4_correccion_afin_por_vano_witness :
    (correccion_afin_vanos [⟨1, "A"⟩, ⟨2, "B"⟩, ⟨4, "C"⟩] [0, 1, 2, 3, 4, 5]
      [7, 7, 7, 7, 7, 7]).getD 2 0 = 0 ∧
    (correccion_afin_vanos [⟨1, "A"⟩, ⟨2, "B"⟩, ⟨4, "C"⟩] [0, 1, 2, 3, 4, 5]
      [7, 7, 7, 7, 7, 7]).getD 0 0 = 7 ∧
    (correccion_afin_vanos [⟨1, "A"⟩, ⟨2, "B"⟩, ⟨4, "C"⟩] [0, 1, 2, 3, 4, 5]
      [7, 7, 7, 7, 7, 7]).getD 5 0 = 7 ∧
    correccion_afin_vanos [⟨0, "A"⟩, ⟨6, "B"⟩] [0, 1, 2] [9, 9, 9] = [9, 9, 9] := by
  have h := c4_correccion_afin_por_vano [⟨1, "A"⟩, ⟨2, "B"⟩, ⟨4, "C"⟩] [0, 1, 2, 3, 4, 5]
    [7, 7, 7, 7, 7, 7] [1, 2, 4] (by norm_num) rfl
  have h2 := h.2 (by norm_num) (by norm_num [sortQ, insertQ])
    (by norm_num [List.chain'_cons, tol12]) (by norm_num)
  have ha : argminAbs [0, 1, 2, 3, 4, 5] (2 : ℚ) = 2 := by
    norm_num [argminAbs, argminAbsAux]
  refine ⟨?_, ?_, ?_, ?_⟩
  · have := h2.1 2 (by norm_num) (by norm_num) (by norm_num [List.getLastD])
    rwa [ha] at this
  · exact h2.2 0 (by norm_num) (by norm_num)
  · exact h2.2 5 (by norm_num) (by norm_num [List.getLastD])
  · exact (c4_correccion_afin_por_vano [⟨0, "A"⟩, ⟨6, "B"⟩] [0, 1, 2] [9, 9, 9] []
      (by norm_num) rfl).1 rfl

/-- C9.  For a beam with 3 or more supports and no memoized result whose
flexibility solve is singular (the embedded np.linalg.solve returns none),
calcular_reacciones fails with an error — never a result — and the memoized
reaction cache of the post-state beam remains unset; in this exact-rational
model no NaN can be produced, and the Except type makes a partial mapping on
failure impossible.  The hypothesis quantifies over whatever primary beam and
flexibility columns the pipeline produced, so it covers exactly the runs
whose assembled flexibility matrix is singular; runs that fail even earlier
abort with an error as well. -/
theorem c9_singular_sin_resultado (defl : Viga → ℚ → ℚ) (v : Viga)
    (hcache : v.cacheReacciones = none) (hn : 3 ≤ v.apoyos.length)
    (hsing : ∀ vp cols,
      viga_auxiliar v.longitud v.E v.I (apoyo_izq v) (apoyo_der v) v.cargas = .ok vp →
      columnas_flexibilidad defl v.longitud v.E v.I (apoyo_izq v) (apoyo_der v)
        (apoyos_redundantes v) (apoyos_redundantes v) = .ok cols →
      gaussSolve (matriz_flexibilidad cols (apoyos_redundantes v).length)
        ((deflexiones_cargas defl vp (apoyos_redundantes v)).map Neg.neg) = none) :
    (∃ e, (calcular_reacciones defl v).1 = .error e) ∧
    (calcular_reacciones defl v).2.cacheReacciones = none := by
  have herr : ∃ e, calcular_reacciones_hiper defl v (apoyo_izq v) (apoyo_der v)
      (apoyos_redundantes v) = .error e := by
    cases h1 : viga_auxiliar v.longitud v.E v.I (apoyo_izq v) (apoyo_der v) v.cargas with
    | error e => exact ⟨e, by simp only [calcular_reacciones_hiper, h1]⟩
    | ok vp =>
        cases h2 : calc_dos vp with
        | error e => exact ⟨e, by simp only [calcular_reacciones_hiper, h1, h2]⟩
        | ok rp =>
            cases h3 : columnas_flexibilidad defl v.longitud v.E v.I (apoyo_izq v)
                (apoyo_der v) (apoyos_redundantes v) (apoyos_redundantes v) with
            | error e => exact ⟨e, by simp only [calcular_reacciones_hiper, h1, h2, h3]⟩
            | ok cols =>
                refine ⟨"No se pudieron calcular las reacciones hiperestaticas", ?_⟩
                have hs := hsing vp cols h1 h3
                simp only [calcular_reacciones_hiper, h1, h2, h3, hs]
  obtain ⟨e, he⟩ := herr
  rcases hv : v.apoyos with _ | ⟨a, _ | ⟨b, _ | ⟨c, rest⟩⟩⟩
  · rw [hv] at hn; simp at hn
  · rw [hv] at hn; simp at hn
  · rw [hv] at hn; simp at hn
  · refine ⟨⟨e, ?_⟩, ?_⟩
    · simp only [calcular_reacciones, hcache, hv, he]
    · simp only [calcular_reacciones, hcache, hv, he]

/-- Witness for C9: the unloaded beam with supports at 0, 3 and 6 under the
all-zero deflection oracle, whose 1 x 1 flexibility matrix is [[0]] and hence
singular. -/
theorem c9_singular_sin_resultado_witness :
    (∃ e, (calcular_reacciones defl0 vigaC9).1 = .error e) ∧
    (calcular_reacciones defl0 vigaC9).2.cacheReacciones = none := by
  refine c9_singular_sin_resultado defl0 vigaC9 rfl (by norm_num [vigaC9]) ?_
  intro vp cols h1 h2
  have hcols : columnas_flexibilidad defl0 vigaC9.longitud vigaC9.E vigaC9.I
      (apoyo_izq vigaC9) (apoyo_der vigaC9) (apoyos_redundantes vigaC9)
      (apoyos_redundantes vigaC9) = .ok [[0]] := by
    norm_num [columnas_flexibilidad, vigaC9, apoyo_izq, apoyo_der, apoyos_redundantes,
      mkCargaPuntual, viga_auxiliar, mkViga, agregar_cargas, agregar_carga, sortApoyos,
      insertApoyo, apoyosFuera, apoyosCercanos, tol12, tol1mm, defl0]
  rw [h2] at hcols
  have hc : cols = [[0]] := by
    injection hcols with heq
  subst hc
  norm_num [vigaC9, apoyos_redundantes, deflexiones_cargas, defl0, matriz_flexibilidad,
    gaussSolve, gaussRecFuel, pivotSplit, List.range]

/-- C2 (amended).  For every beam with at least two supports, with no stale
memoized result and with pairwise-distinct support names, a successful
calcular_reacciones returns a mapping whose values sum exactly to the sum of
total_load over the loads — in particular within the 1e-3 tolerance.  This
covers the two-support branch and the full hyperstatic superposition (extreme
reactions plus redundant reactions), for an arbitrary deflection oracle.  The
name-distinctness hypothesis is necessary: the name-keyed dict merges entries
of same-named supports, as the counterexample records. -/
theorem c2_suma_reacciones (defl : Viga → ℚ → ℚ) (v : Viga) (r : Dict)
    (hcache : v.cacheReacciones = none) (hn : 2 ≤ v.apoyos.length)
    (hnames : (v.apoyos.map Apoyo.nombre).Nodup)
    (hok : (calcular_reacciones defl v).1 = .ok r) :
    dictValuesSum r = sumCargas v.cargas ∧
    |dictValuesSum r - sumCargas v.cargas| ≤ 1 / 1000 := by
  have hmain : dictValuesSum r = sumCargas v.cargas := by
    rcases hv : v.apoyos with _ | ⟨a, _ | ⟨b, _ | ⟨c, rest⟩⟩⟩
    · rw [hv] at hn; simp at hn
    · rw [hv] at hn; simp at hn
    · -- two supports
      have hab : a.nombre ≠ b.nombre := by
        rw [hv] at hnames
        simp only [List.map_cons, List.map_nil, List.nodup_cons] at hnames
        intro hEq
        exact hnames.1 (by simp [hEq])
      simp only [calcular_reacciones, hcache, hv] at hok
      cases hr2 : reacciones_dos_apoyos v.cargas a b with
      | error e => rw [hr2] at hok; cases hok
      | ok r2 =>
          rw [hr2] at hok
          injection hok with h'
          subst h'
          rw [reacciones_dos_ok v.cargas a b r2 hab hr2]
          simp only [dictValuesSum, List.map_cons, List.map_nil, List.sum_cons, List.sum_nil]
          ring
    · -- three or more supports: the hyperstatic superposition
      have hn3 : 3 ≤ v.apoyos.length := by rw [hv]; simp
      obtain ⟨hizqder, hredsne, hredsnodup⟩ := nombres_hiper v hn3 hnames
      simp only [calcular_reacciones, hcache, hv] at hok
      cases hh : calcular_reacciones_hiper defl v (apoyo_izq v) (apoyo_der v)
          (apoyos_redundantes v) with
      | error e => rw [hh] at hok; cases hok
      | ok rh =>
          rw [hh] at hok
          injection hok with h'
          subst h'
          cases h1 : viga_auxiliar v.longitud v.E v.I (apoyo_izq v) (apoyo_der v) v.cargas with
          | error e => simp only [calcular_reacciones_hiper, h1] at hh; cases hh
          | ok vp =>
          simp only [calcular_reacciones_hiper, h1] at hh
          cases h2 : calc_dos vp with
          | error e => simp only [h2] at hh; cases hh
          | ok rp =>
          simp only [h2] at hh
          cases h3 : columnas_flexibilidad defl v.longitud v.E v.I (apoyo_izq v) (apoyo_der v)
              (apoyos_redundantes v) (apoyos_redundantes v) with
          | error e => simp only [h3] at hh; cases hh
          | ok cols =>
          simp only [h3] at hh
          cases h4 : gaussSolve (matriz_flexibilidad cols (apoyos_redundantes v).length)
              (List.map Neg.neg (deflexiones_cargas defl vp (apoyos_redundantes v))) with
          | none => simp only [h4] at hh; cases hh
          | some R_red =>
          simp only [h4] at hh
          cases h5 : cargas_equivalentes ((apoyos_redundantes v).zip R_red) with
          | error e => simp only [h5] at hh; cases hh
          | ok ceq =>
          simp only [h5] at hh
          cases h6 : viga_auxiliar v.longitud v.E v.I (apoyo_izq v) (apoyo_der v) ceq with
          | error e => simp only [h6] at hh; cases hh
          | ok vr =>
          simp only [h6] at hh
          cases h7 : calc_dos vr with
          | error e => simp only [h7] at hh; cases hh
          | ok rr =>
          simp only [h7] at hh
          injection hh with hh'
          subst hh'
          obtain ⟨hap_p, hcg_p⟩ :=
            viga_auxiliar_ok v.longitud v.E v.I (apoyo_izq v) (apoyo_der v) v.cargas vp h1
          obtain ⟨hsum_p, hnone_p⟩ := calc_dos_ok vp (apoyo_izq v) (apoyo_der v) rp
            hap_p hizqder h2
          obtain ⟨hap_r, hcg_r⟩ :=
            viga_auxiliar_ok v.longitud v.E v.I (apoyo_izq v) (apoyo_der v) ceq vr h6
          obtain ⟨hsum_r, hnone_r⟩ := calc_dos_ok vr (apoyo_izq v) (apoyo_der v) rr
            hap_r hizqder h7
          rw [hcg_p] at hsum_p
          rw [hcg_r, cargas_equivalentes_sum _ _ h5] at hsum_r
          rw [dictInsert_two _ _ _ _ hizqder]
          have hfresh : ∀ par ∈ (apoyos_redundantes v).zip R_red,
              dictGet [((apoyo_izq v).nombre,
                  (dictGet rp (apoyo_izq v).nombre).getD 0 +
                    (dictGet rr (apoyo_izq v).nombre).getD 0),
                ((apoyo_der v).nombre,
                  (dictGet rp (apoyo_der v).nombre).getD 0 +
                    (dictGet rr (apoyo_der v).nombre).getD 0)] par.1.nombre = none := by
            intro par hpar
            obtain ⟨hne_i, hne_d⟩ := hredsne par.1 (List.of_mem_zip hpar).1
            rw [dictGet_cons_ne _ _ _ _ (fun hEq => hne_i hEq.symm),
              dictGet_cons_ne _ _ _ _ (fun hEq => hne_d hEq.symm)]
            rfl
          have hzip_names :
              (((apoyos_redundantes v).zip R_red).map (fun par => par.1.nombre)).Nodup := by
            have hcomp : ((apoyos_redundantes v).zip R_red).map (fun par => par.1.nombre) =
                (((apoyos_redundantes v).zip R_red).map Prod.fst).map Apoyo.nombre := by
              rw [List.map_map]
              rfl
            rw [hcomp, map_fst_zip_take, List.map_take]
            exact hredsnodup.sublist (List.take_sublist _ _)
          rw [foldl_insert_sum _ _ hfresh hzip_names]
          simp only [dictValuesSum, List.map_cons, List.map_nil, List.sum_cons, List.sum_nil]
          linarith [hsum_p, hsum_r]
  exact ⟨hmain, by rw [hmain]; simp⟩

/-- C2 (counterexample).  A fully validated beam on which the claim fails:
supports at 0 and 0.002 m (2 mm apart, passing the 1 mm check) both receive
the default generated name R_0.00, so the name-keyed reaction dict collapses
to a single entry; with a 1000 N load at x = 3 the solve succeeds and the sum
of the returned reaction forces is 1500000 N, not 1000 N, violating the 1e-3
tolerance. -/
theorem c2_suma_reacciones_counterexample :
    mkApoyo 0 "" = .ok ⟨0, "R_0.00"⟩ ∧
    mkApoyo (1 / 500) "" = .ok ⟨1 / 500, "R_0.00"⟩ ∧
    mkViga 6 1 1 [⟨0, "R_0.00"⟩, ⟨1 / 500, "R_0.00"⟩] =
      .ok ⟨6, 1, 1, [⟨0, "R_0.00"⟩, ⟨1 / 500, "R_0.00"⟩], [], none⟩ ∧
    agregar_carga ⟨6, 1, 1, [⟨0, "R_0.00"⟩, ⟨1 / 500, "R_0.00"⟩], [], none⟩
      (.puntual 1000 3) = .ok vigaC2cx ∧
    2 ≤ vigaC2cx.apoyos.length ∧
    (calcular_reacciones defl0 vigaC2cx).1 = .ok [("R_0.00", 1500000)] ∧
    dictValuesSum [("R_0.00", (1500000 : ℚ))] = 1500000 ∧
    sumCargas vigaC2cx.cargas = 1000 ∧
    ¬ (|(1500000 : ℚ) - 1000| ≤ 1 / 1000) := by
  have habs : |(1 : ℚ) / 500| = 1 / 500 := abs_of_pos (by norm_num)
  refine ⟨?_, ?_, ?_, ?_, ?_, ?_, ?_, ?_, ?_⟩
  · norm_num [mkApoyo, format2]
    decide
  · norm_num [mkApoyo, format2]
    decide
  · norm_num [mkViga, apoyosFuera, apoyosCercanos, sortApoyos, insertApoyo, tol1mm, habs]
  · norm_num [agregar_carga, vigaC2cx]
  · norm_num [vigaC2cx]
  · norm_num [calcular_reacciones, vigaC2cx, reacciones_dos_apoyos, tol12, sumCargas,
      sumMomentos, total_load, moment_about, dictInsert, habs]
  · norm_num [dictValuesSum]
  · norm_num [vigaC2cx, sumCargas, total_load]
  · norm_num

/-- Witness for the amended C2 on the beam with supports A at 0, B at 6 and a
1000 N load at x = 3: reactions (500, 500), summing exactly to the loads. -/
theorem c2_suma_reacciones_witness :
    (calcular_reacciones defl0 vigaC2w).1 = .ok [("A", 500), ("B", 500)] ∧
    dictValuesSum [("A", (500 : ℚ)), ("B", 500)] = sumCargas vigaC2w.cargas ∧
    |dictValuesSum [("A", (500 : ℚ)), ("B", 500)] - sumCargas vigaC2w.cargas| ≤ 1 / 1000 := by
  have hok : (calcular_reacciones defl0 vigaC2w).1 = .ok [("A", 500), ("B", 500)] := by
    norm_num [calcular_reacciones, vigaC2w, reacciones_dos_apoyos, tol12, sumCargas,
      sumMomentos, total_load, moment_about, dictInsert]
    decide
  have h := c2_suma_reacciones defl0 vigaC2w [("A", 500), ("B", 500)] rfl
    (by norm_num [vigaC2w]) (by simp [vigaC2w]) hok
  exact ⟨hok, h.1, h.2⟩

end Analisis
